import Mathlib

/-!
Verification development for the rule-evaluation and rebalance/backtest
decision engine of the `trading-system` repository.

Shallow embedding conventions:
* Python floats are modelled by exact rationals (`ℚ`).  Float literals such
  as `1e-6` and `1e-9` are taken at their decimal value; IEEE rounding,
  `inf` and `NaN` arising from float arithmetic are outside the model
  except where noted (the expression evaluator models `NaN` cells
  explicitly, see `Cell.nan`).
* File/network I/O performed by the source (reading parquet files,
  writing reports) is out of the core's contract per the spec; prices read
  from the curated store are passed in as a lookup function, and
  persistence is modelled as data in the result record.
* `pandas.Timestamp` calendar facts used by the cadence gate
  (`weekday()`, `BMonthEnd` comparison) are carried as attributes of the
  modelled timestamp.
* Fallible code is modelled with `Except String`.
-/

namespace TradingSystem

/-- `math.floor` / `int(...)` on a rational: floor division of the
numerator by the (positive) denominator. -/
def ratFloor (q : ℚ) : ℤ := q.num.ediv q.den

/-- Rounding to the nearest integer, half rounded up.  Python uses
banker's rounding at exact ties; no claim in this development depends on
tie behaviour. -/
def ratRound (q : ℚ) : ℤ := ratFloor (q + 1 / 2)

/-- `round(x, d)` from Python, i.e. rounding to `d` decimal digits. -/
def roundTo (digits : Nat) (x : ℚ) : ℚ :=
  ((ratRound (x * (10 : ℚ) ^ digits) : ℤ) : ℚ) / (10 : ℚ) ^ digits

/-- Lexicographic comparison of character lists (Python string `<`). -/
def charListLt : List Char → List Char → Bool
  | _, [] => false
  | [], _ :: _ => true
  | a :: as, b :: bs =>
    if a < b then true else if b < a then false else charListLt as bs

/-- Python string `<` (strict lexicographic order). -/
def strLtB (a b : String) : Bool := charListLt a.data b.data

/-- Python string `<=`. -/
def strLeB (a b : String) : Bool := !(charListLt b.data a.data)

/-- Python `str.upper()` (character-wise upper-casing). -/
def strUpper (s : String) : String := ⟨s.data.map Char.toUpper⟩

/-- Python `str.lower()` (character-wise lower-casing). -/
def strLower (s : String) : String := ⟨s.data.map Char.toLower⟩

/-- Python `str.strip()`: drop leading and trailing whitespace. -/
def strTrim (s : String) : String :=
  ⟨((s.data.dropWhile Char.isWhitespace).reverse.dropWhile Char.isWhitespace).reverse⟩

/-- The float literal `1e-9` used as slack in the source. -/
def eps9 : ℚ := 1 / 1000000000

/-- The float literal `1e-6` used as the order rounding threshold. -/
def eps6 : ℚ := 1 / 1000000

/-- Stable insertion of an element into a list with respect to a boolean
"less or equal" test (`le x y = true` places `x` no later than `y`). -/
def insertLe {α : Type} (le : α → α → Bool) (x : α) : List α → List α
  | [] => [x]
  | y :: ys => if le x y then x :: y :: ys else y :: insertLe le x ys

/-- Stable insertion sort, modelling Python's stable `list.sort(key=...)`. -/
def sortLe {α : Type} (le : α → α → Bool) (l : List α) : List α :=
  l.foldr (insertLe le) []

/-- Insert a string into a sorted, duplicate-free list of strings.  Used to
model Python `set` of symbols iterated via `sorted(...)`. -/
def insertSortedDedup (s : String) : List String → List String
  | [] => [s]
  | y :: ys =>
    if s = y then y :: ys
    else if strLtB s y then s :: y :: ys
    else y :: insertSortedDedup s ys

/-- Sorted, duplicate-free union of two symbol lists, modelling
`sorted(set(a) | set(b))`. -/
def sortedUnion (a b : List String) : List String :=
  (a ++ b).foldl (fun acc s => insertSortedDedup s acc) []

/-! ### Data model: positions, holdings, rebalance records (risk/__init__.py,
rebalance/__init__.py) -/

/-- `Position` dataclass (risk/__init__.py): `{symbol, qty, cost_basis}`. -/
structure Position where
  symbol : String
  qty : ℚ
  cost_basis : Option ℚ := none
  deriving DecidableEq, Repr

/-- `HoldingsSnapshot` (risk/__init__.py): positions plus optional cash.
The `as_of_date` and `base_ccy` fields do not enter the rebalance
computation and are omitted. -/
structure HoldingsSnapshot where
  positions : List Position
  cash : Option ℚ := none
  deriving DecidableEq, Repr

/-- `RebalanceTarget` dataclass. -/
structure RebalanceTarget where
  symbol : String
  target_weight : ℚ
  rationale : Option String := none
  deriving DecidableEq, Repr

/-- `RebalanceOrder` dataclass. -/
structure RebalanceOrder where
  symbol : String
  side : String
  quantity : ℚ
  notional : ℚ
  deriving DecidableEq, Repr

/-- Modelled `pandas.Timestamp`: the two calendar attributes consumed by
`_is_rebalance_day` (`weekday()`; whether the date equals
`date + BMonthEnd(0)`, i.e. is the last business day of its month). -/
structure Timestamp where
  weekday : Nat
  isBMonthEnd : Bool
  deriving DecidableEq, Repr

/-- `RebalanceResult` dataclass.  `output_path` is set only by `build`
(persistence, outside `evaluate`). -/
structure RebalanceResult where
  status : String
  cash_buffer : ℚ
  turnover : ℚ
  targets : List RebalanceTarget
  orders : List RebalanceOrder
  notes : List String
  deriving DecidableEq, Repr

/-- `_Candidate` dataclass (rebalance/__init__.py). -/
structure Candidate where
  symbol : String
  signal : String
  rank_score : ℚ
  price : ℚ
  rationale : String
  is_existing : Bool
  deriving DecidableEq, Repr

/-- `_Proposal` dataclass (rebalance/__init__.py). -/
structure Proposal where
  status : String
  targets : List RebalanceTarget
  orders : List RebalanceOrder
  turnover : ℚ
  notes : List String
  deriving DecidableEq, Repr

/-- One row of the signals frame handed to `RebalanceEngine.evaluate`
after the `_prepare_signals` date filter (`date == as_of`); the `date`
column itself is therefore not carried.  A missing `rank_score` column is
filled with `0.0` by `_prepare_signals`, so the field is total here.
Python float `-inf` rank scores behave like any sufficiently negative
rational in every use (sorting, `max(score, 0)`, `<= 0` tests) and are
modelled by negative rationals. -/
structure SignalRow where
  symbol : String
  signal : String
  rank_score : ℚ
  deriving DecidableEq, Repr

/-- Raw `rebalance:` configuration section consumed by
`RebalanceEngine.__init__` (config.py fields, optional where the source
treats them as possibly `None`). -/
structure RebalanceConfig where
  cadence : Option String
  max_positions : Int
  equal_weight : Option Bool
  min_weight : Option ℚ
  cash_buffer : Option ℚ
  turnover_cap_pct : Option ℚ
  deriving DecidableEq, Repr

/-- The validated configuration state stored on a constructed
`RebalanceEngine`. -/
structure EngineState where
  cadence : String
  max_positions : Int
  equal_weight : Bool
  min_weight : ℚ
  cash_buffer : ℚ
  turnover_cap : Option ℚ
  deriving DecidableEq, Repr

/-- `RebalanceEngine.__init__`: strips and lower-cases the cadence string,
rejecting only a blank cadence; all other fields are normalised with
defaults (`equal_weight` defaults to true, `min_weight`/`cash_buffer` to
`0.0`). -/
def engineInit (cfg : RebalanceConfig) : Except String EngineState :=
  let cadenceRaw := (strLower (strTrim (cfg.cadence.getD "")))
  if cadenceRaw = "" then
    .error "Rebalance cadence must be configured"
  else
    .ok { cadence := cadenceRaw
          max_positions := cfg.max_positions
          equal_weight := cfg.equal_weight.getD true
          min_weight := cfg.min_weight.getD 0
          cash_buffer := cfg.cash_buffer.getD 0
          turnover_cap := cfg.turnover_cap_pct }

/-- `_is_rebalance_day`: `monthly` means last business day of the month,
`weekly` means Friday (`weekday() == 4`); anything else raises. -/
def isRebalanceDay (asOf : Timestamp) (cadence : String) : Except String Bool :=
  if cadence = "monthly" then .ok asOf.isBMonthEnd
  else if cadence = "weekly" then .ok (asOf.weekday == 4)
  else .error ("Unsupported rebalance cadence: " ++ cadence)

/-- `_prepare_signals` after its date filter: upper-cases symbols and
sorts rows by `(rank_score desc, symbol asc)` (stable). -/
def prepareSignals (rows : List SignalRow) : List SignalRow :=
  let upped := rows.map (fun r => { r with symbol := strUpper r.symbol })
  sortLe (fun a b =>
    if b.rank_score < a.rank_score then true
    else if a.rank_score < b.rank_score then false
    else strLeB a.symbol b.symbol) upped

/-- Dictionary insertion: replace in place if the key exists, else append.
Models Python `dict` construction (`{p.symbol: p for p in positions}`,
later entries overwriting earlier ones). -/
def upsertPosition (ps : List Position) (p : Position) : List Position :=
  if ps.any (fun q => q.symbol = p.symbol) then
    ps.map (fun q => if q.symbol = p.symbol then p else q)
  else
    ps ++ [p]

/-- `{position.symbol: position for position in holdings.positions}`. -/
def positionsDict (l : List Position) : List Position :=
  l.foldl upsertPosition []

/-- `current_positions.get(symbol)` lookup in the modelled dict. -/
def posLookup (ps : List Position) (s : String) : Option Position :=
  ps.find? (fun p => p.symbol = s)

/-- `_load_price`: the source reads the latest close on or before `as_of`
from the curated parquet file and raises on a missing file, an empty
frame, no row on or before the date, or a NaN/non-positive close.  The
curated store is abstracted as `priceData`; `none` stands for every one of
those missing-data conditions and a non-positive close reproduces the
`Invalid close price` failure. -/
def loadPrice (priceData : String → Option ℚ) (symbol : String) : Except String ℚ :=
  match priceData symbol with
  | none => .error ("Curated dataset missing for " ++ symbol)
  | some p => if p ≤ 0 then .error ("Invalid close price for " ++ symbol) else .ok p

/-- `_load_price_map`: price per requested symbol, first failure aborts. -/
def loadPriceMap (priceData : String → Option ℚ) :
    List String → Except String (List (String × ℚ))
  | [] => .ok []
  | s :: rest => do
    let p ← loadPrice priceData s
    let tail ← loadPriceMap priceData rest
    .ok ((s, p) :: tail)

/-- `price_map.get(symbol)`. -/
def priceLookup (pm : List (String × ℚ)) (s : String) : Option ℚ :=
  (pm.find? (fun e => e.1 = s)).map (fun e => e.2)

/-- `_collect_candidates` body for one row. -/
def candidateOfRow (currentSymbols : List String) (pm : List (String × ℚ))
    (equalWeight : Bool) (r : SignalRow) : Option Candidate :=
  let symbol := strUpper r.symbol
  let signal := strUpper r.signal
  if signal = "EXIT" then none
  else
    match priceLookup pm symbol with
    | none => none
    | some price =>
      let isExisting := currentSymbols.contains symbol
      if ¬ equalWeight ∧ r.rank_score ≤ 0 ∧ ¬ isExisting then
        -- avoid allocating new positions with non-positive scores
        none
      else
        some { symbol := symbol
               signal := signal
               rank_score := r.rank_score
               price := price
               rationale := if signal = "BUY" then "BUY signal" else "Maintain position"
               is_existing := isExisting }

/-- `_collect_candidates`: row-wise construction followed by the sort by
`(-rank_score, symbol)`. -/
def collectCandidates (frame : List SignalRow) (currentSymbols : List String)
    (pm : List (String × ℚ)) (equalWeight : Bool) : List Candidate :=
  sortLe (fun a b =>
    if b.rank_score < a.rank_score then true
    else if a.rank_score < b.rank_score then false
    else strLeB a.symbol b.symbol)
    (frame.filterMap (candidateOfRow currentSymbols pm equalWeight))

/-- `_collect_exit_symbols`: the set of currently-held symbols whose
signal today is `EXIT`, as the sorted duplicate-free list over which the
source iterates. -/
def collectExitSymbols (frame : List SignalRow) (currentSymbols : List String) :
    List String :=
  frame.foldl (fun acc r =>
    if strUpper r.signal = "EXIT" ∧ currentSymbols.contains (strUpper r.symbol) then
      insertSortedDedup (strUpper r.symbol) acc
    else acc) []

/-- `_max_positions_by_min_weight`. -/
def maxPositionsByMinWeight (availableWeight minWeight : ℚ) (maxPositions : Int) : Int :=
  if maxPositions ≤ 0 then 0
  else if minWeight ≤ 0 then maxPositions
  else max 0 (min maxPositions (ratFloor ((availableWeight + eps9) / minWeight)))

/-- The `while` loop of `_enforce_min_weight`, expressed on the reversed
candidate list so that popping the last element is structural recursion:
the head of `rev` is the current last element of the working list. -/
def enforceMinWeightRev (availableWeight minWeight : ℚ) :
    List Candidate → List Candidate × List String
  | [] => ([], [])
  | c :: rest =>
    if minWeight ≤ availableWeight / (rest.length + 1 : ℚ) + eps9 then
      (c :: rest, [])
    else
      let (kept, notes) := enforceMinWeightRev availableWeight minWeight rest
      (kept, ("Removed " ++ c.symbol ++ " to satisfy min_weight") :: notes)

/-- `_enforce_min_weight`: iteratively drop the lowest-ranked candidate
while the equal split falls below `min_weight` (with `1e-9` slack),
collecting a removal note per drop. -/
def enforceMinWeight (selected : List Candidate) (availableWeight minWeight : ℚ) :
    List Candidate × List String :=
  if selected.isEmpty ∨ minWeight ≤ 0 then (selected, [])
  else
    let (keptRev, notes) := enforceMinWeightRev availableWeight minWeight selected.reverse
    (keptRev.reverse, notes)

/-- `_compute_weights`. -/
def computeWeights (selected : List Candidate) (availableWeight : ℚ)
    (equalWeight : Bool) : List ℚ :=
  if selected.isEmpty then []
  else if equalWeight ∨ selected.length = 1 then
    selected.map (fun _ => availableWeight / (selected.length : ℚ))
  else
    let scores := selected.map (fun c => max c.rank_score 0)
    let totalScore := scores.sum
    if totalScore ≤ 0 then
      selected.map (fun _ => availableWeight / (selected.length : ℚ))
    else
      scores.map (fun s => availableWeight * s / totalScore)

/-- The `for symbol, position in current_positions.items()` accumulation in
`_orders_and_turnover`: builds `current_values` (symbol → qty×price) and
the running total, raising on a missing price for a held symbol. -/
def currentValues (positions : List Position) (pm : List (String × ℚ)) :
    Except String (List (String × ℚ)) :=
  positions.foldlM (fun acc p =>
    match priceLookup pm p.symbol with
    | none => .error ("Missing price for current holding " ++ p.symbol)
    | some price => .ok (acc ++ [(p.symbol, p.qty * price)])) []

/-- Body of the per-symbol loop of `_orders_and_turnover`: returns the
turnover contribution and the optional order for one symbol. -/
def orderForSymbol (positions : List Position) (cvals : List (String × ℚ))
    (pm : List (String × ℚ)) (targetWeights : List (String × ℚ)) (totalValue : ℚ)
    (symbol : String) : ℚ × Option RebalanceOrder :=
  match priceLookup pm symbol with
  | none => (0, none)
  | some price =>
    let currentQty := ((posLookup positions symbol).map Position.qty).getD 0
    let currentWeight := (priceLookup cvals symbol).getD 0 / totalValue
    let targetWeight := (priceLookup targetWeights symbol).getD 0
    let tv := |targetWeight - currentWeight|
    let targetValue := targetWeight * totalValue
    let targetQty := if 0 < price then targetValue / price else 0
    let deltaQty := targetQty - currentQty
    if |deltaQty| < eps6 then (tv, none)
    else
      (tv, some { symbol := symbol
                  side := if 0 < deltaQty then "BUY" else "SELL"
                  quantity := roundTo 6 deltaQty
                  notional := roundTo 2 (|deltaQty| * price) })

/-- `{target.symbol: target.target_weight for target in targets}` (a dict,
so a later duplicate symbol overwrites an earlier one). -/
def targetWeightsDict (targets : List RebalanceTarget) : List (String × ℚ) :=
  targets.foldl (fun acc t =>
    if acc.any (fun e => e.1 = t.symbol) then
      acc.map (fun e => if e.1 = t.symbol then (e.1, t.target_weight) else e)
    else acc ++ [(t.symbol, t.target_weight)]) []

/-- `_orders_and_turnover`: total portfolio value, per-symbol deltas over
the sorted union of held and targeted symbols, the `1e-6` suppression
threshold, rounding, and the final half-turnover scaling. -/
def ordersAndTurnover (positions : List Position) (holdingsCash : ℚ)
    (pm : List (String × ℚ)) (targets : List RebalanceTarget) :
    Except String (List RebalanceOrder × ℚ) := do
  let cvals ← currentValues positions pm
  let totalValue : ℚ := holdingsCash + (cvals.map (fun e => e.2)).sum
  if totalValue ≤ 0 then
    .error "Total portfolio value must be positive"
  else
    let tw := targetWeightsDict targets
    let symbols := sortedUnion (positions.map Position.symbol) (targets.map RebalanceTarget.symbol)
    let results := symbols.map (orderForSymbol positions cvals pm tw totalValue)
    let orders := results.filterMap (fun r => r.2)
    let turnover := (results.map (fun r => r.1)).sum
    let ordersSorted := sortLe (fun a b => strLeB a.symbol b.symbol) orders
    .ok (ordersSorted, turnover * (1 / 2))

/-- `_build_proposal`: selected candidates get `_compute_weights` targets,
exit symbols get weight-0 targets, targets are sorted by
`(-target_weight, symbol)`, and orders/turnover derive from
`_orders_and_turnover`.  Status is `REBALANCE` when any target or order
exists, else `NO_CANDIDATES`. -/
def buildTargets (selected : List Candidate) (exitSymbols : List String)
    (availableWeight : ℚ) (equalWeight : Bool) : List RebalanceTarget :=
  let weights := computeWeights selected availableWeight equalWeight
  let selTargets := (selected.zip weights).map (fun cw =>
    { symbol := cw.1.symbol, target_weight := cw.2, rationale := some cw.1.rationale
      : RebalanceTarget })
  let exitTargets := exitSymbols.map (fun s =>
    { symbol := s, target_weight := 0, rationale := some "Exit signal triggered"
      : RebalanceTarget })
  sortLe (fun a b =>
    if b.target_weight < a.target_weight then true
    else if a.target_weight < b.target_weight then false
    else strLeB a.symbol b.symbol) (selTargets ++ exitTargets)

/-- The note recorded by `_build_proposal` (format specifiers abstracted). -/
def allocNotes (selected : List Candidate) : List String :=
  if selected.isEmpty then ["No candidates selected for allocation"]
  else ["Selected symbols for allocation"]

def buildProposal (selected : List Candidate) (exitSymbols : List String)
    (positions : List Position) (holdingsCash : ℚ) (pm : List (String × ℚ))
    (availableWeight : ℚ) (equalWeight : Bool) : Except String Proposal := do
  let targets := buildTargets selected exitSymbols availableWeight equalWeight
  let (orders, turnover) ← ordersAndTurnover positions holdingsCash pm targets
  let status := if ¬ targets.isEmpty ∨ ¬ orders.isEmpty then "REBALANCE" else "NO_CANDIDATES"
  .ok { status := status, targets := targets, orders := orders, turnover := turnover
        notes := allocNotes selected }

/-- The descending-index loop of `_reduce_turnover`, expressed on the
reversed candidate list: `rev` holds the still-unvisited elements (last
element of the working list first) and `kept` the already-visited
survivors.  The working list at each iteration is
`rev.reverse ++ kept`. -/
def reduceTurnoverLoop (exitSymbols : List String) (positions : List Position)
    (holdingsCash : ℚ) (pm : List (String × ℚ)) (availableWeight : ℚ)
    (equalWeight : Bool) (cap : ℚ) :
    List Candidate → List Candidate → List String → Except String (Proposal × List String)
  | [], kept, removalNotes => do
    -- Attempt final proposal with remaining candidates (existing only).
    let finalProposal ← buildProposal kept exitSymbols positions holdingsCash pm
      availableWeight equalWeight
    if cap < finalProposal.turnover then
      .ok ({ finalProposal with
               status := "TURNOVER_LIMIT"
               orders := []
               targets := []
               turnover := 0
               notes := finalProposal.notes ++ ["Turnover cap prevented adjustments"] },
           removalNotes)
    else
      .ok ({ finalProposal with
               notes := finalProposal.notes ++ ["Turnover adjusted within cap"] },
           removalNotes)
  | c :: rev, kept, removalNotes => do
    let proposal ← buildProposal (rev.reverse ++ c :: kept) exitSymbols positions
      holdingsCash pm availableWeight equalWeight
    if proposal.turnover ≤ cap then
      .ok ({ proposal with notes := proposal.notes ++ ["Turnover within cap"] },
           removalNotes)
    else if c.is_existing then
      reduceTurnoverLoop exitSymbols positions holdingsCash pm availableWeight
        equalWeight cap rev (c :: kept) removalNotes
    else
      reduceTurnoverLoop exitSymbols positions holdingsCash pm availableWeight
        equalWeight cap rev kept
        (removalNotes ++ ["Removed " ++ c.symbol ++ " to satisfy turnover cap"])

/-- `_reduce_turnover`: drop lowest-ranked newly-added candidates (never
already-held ones) until turnover fits the cap; if the final attempt still
exceeds the cap, discard the whole proposal as `TURNOVER_LIMIT` with empty
targets and orders and zero turnover.  The second component collects the
removal notes the source appends to the engine-level notes list. -/
def reduceTurnover (selected : List Candidate) (exitSymbols : List String)
    (positions : List Position) (holdingsCash : ℚ) (pm : List (String × ℚ))
    (availableWeight : ℚ) (equalWeight : Bool) (cap : ℚ) :
    Except String (Proposal × List String) :=
  reduceTurnoverLoop exitSymbols positions holdingsCash pm availableWeight
    equalWeight cap selected.reverse [] []

/-- Loop body of `_exit_orders` for one exit symbol: one SELL order sized
to the raw position quantity rounded to 6 decimals; `None` when the
symbol is not held, held with zero quantity, or unpriced. -/
def exitOrderFor (positions : List Position) (pm : List (String × ℚ))
    (symbol : String) : Option RebalanceOrder :=
  match posLookup positions symbol with
  | none => none
  | some position =>
    if position.qty = 0 then none
    else
      match priceLookup pm symbol with
      | none => none
      | some price =>
        some { symbol := symbol
               side := "SELL"
               quantity := roundTo 6 position.qty
               notional := roundTo 2 (|position.qty| * price) }

def exitOrders (exitSymbols : List String) (positions : List Position)
    (pm : List (String × ℚ)) : List RebalanceOrder :=
  exitSymbols.filterMap (exitOrderFor positions pm)

/-- `RebalanceEngine.evaluate`.  The curated-directory existence check and
`_load_price_map`'s file reads are represented by `priceData` lookups via
`loadPriceMap`, which reproduces the source's hard failures for missing
or invalid prices.  The `force` short-circuit mirrors
`if not force and not _is_rebalance_day(...)`: with `force=True` the
cadence (and hence a bad cadence string) is never inspected. -/
def engineEvaluate (st : EngineState) (asOf : Timestamp)
    (holdings : HoldingsSnapshot) (signals : List SignalRow)
    (priceData : String → Option ℚ) (force : Bool) :
    Except String RebalanceResult :=
  match (if force then Except.ok true else isRebalanceDay asOf st.cadence :
      Except String Bool) with
  | .error e => .error e
  | .ok gate =>
  if ¬ gate then
    .ok { status := "NO_REBALANCE", cash_buffer := st.cash_buffer, turnover := 0
          targets := [], orders := [], notes := ["Cadence not met"] }
  else
    let frame := prepareSignals signals
    if frame.isEmpty then
      .ok { status := "NO_CANDIDATES", cash_buffer := st.cash_buffer, turnover := 0
            targets := [], orders := []
            notes := ["No signals available for rebalance date"] }
    else do
      let positions := positionsDict holdings.positions
      let pm ← loadPriceMap priceData
        (sortedUnion (frame.map SignalRow.symbol) (positions.map Position.symbol))
      let candidates := collectCandidates frame (positions.map Position.symbol) pm
        st.equal_weight
      let exitSymbols := collectExitSymbols frame (positions.map Position.symbol)
      let availableWeight := max 0 (1 - st.cash_buffer)
      let maxAllowed := maxPositionsByMinWeight availableWeight st.min_weight
        st.max_positions
      if maxAllowed = 0 then
        .ok { status := "NO_CAPACITY", cash_buffer := st.cash_buffer, turnover := 0
              targets := [], orders := exitOrders exitSymbols positions pm
              notes := ["Cash buffer and min_weight configuration leave no capacity for targets"] }
      else do
        let selectedInit := candidates.take maxAllowed.toNat
        let (selected, minWeightNotes) := enforceMinWeight selectedInit availableWeight
          st.min_weight
        let proposal ← buildProposal selected exitSymbols positions
          (holdings.cash.getD 0) pm availableWeight st.equal_weight
        let pr ←
          match st.turnover_cap with
          | some cap =>
            if cap < proposal.turnover then
              reduceTurnover selected exitSymbols positions (holdings.cash.getD 0) pm
                availableWeight st.equal_weight cap
            else
              pure (proposal, [])
          | none => pure (proposal, [])
        .ok { status := pr.1.status, cash_buffer := st.cash_buffer
              turnover := pr.1.turnover, targets := pr.1.targets
              orders := pr.1.orders
              notes := minWeightNotes ++ pr.2 ++ pr.1.notes }

/-! ### Expression evaluator (rules.py `RuleEvaluator`)

The evaluator works on pandas series over the frame's shared date index.
A series is modelled as a `List Cell` of per-date values; all series in
one evaluation share the frame's index, so `_ensure_series`'s reindex of
a series over the same index is the identity, and broadcasting a scalar
is `List.replicate`.  Cells carry the value kinds that occur in frames and
rule constants: floats (exact rationals), booleans, strings, and the float
`NaN`.  Float infinities and integer-specific behaviour (such as bitwise
`&` on integer series) are not modelled; operations on them yield model
errors, mirroring the pandas `TypeError`s for the unsupported float/string
cases the rules language can reach. -/

/-- One entry of a pandas series: float, bool, string, or `NaN`. -/
inductive Cell where
  | num (q : ℚ)
  | bool (b : Bool)
  | str (s : String)
  | nan
  deriving DecidableEq, Repr

/-- Python truthiness of a cell (`bool(value)`): nonzero number, `True`,
nonempty string; float `NaN` is truthy. -/
def cellTruthy : Cell → Bool
  | .num q => decide (q ≠ 0)
  | .bool b => b
  | .str s => decide (s ≠ "")
  | .nan => true

/-- `pd.isna` on a cell. -/
def cellIsNA : Cell → Bool
  | .nan => true
  | _ => false

/-- Numeric view of a cell for arithmetic/comparisons (`bool` coerces to
0/1 as in Python); `none` for strings and `NaN`. -/
def cellNum : Cell → Option ℚ
  | .num q => some q
  | .bool b => some (if b then 1 else 0)
  | _ => none

/-- Supported binary arithmetic operators `{+,-,*,/,%,**}`. -/
inductive ArithOp where
  | add | sub | mul | div | mod | pow
  deriving DecidableEq, Repr

/-- Supported comparison operators `{==,!=,<,<=,>,>=}`. -/
inductive CmpOp where
  | eq | ne | lt | le | gt | ge
  deriving DecidableEq, Repr

/-- Supported unary operators `{+,-,not}`. -/
inductive UnOp where
  | uadd | usub | unot
  deriving DecidableEq, Repr

/-- Python float `%` (`a - b * floor(a/b)`, sign following the divisor). -/
def pyMod (a b : ℚ) : ℚ := a - b * (ratFloor (a / b) : ℚ)

/-- `_apply_operator` on two cells for an arithmetic operator.  String
concatenation is supported for `+`; every other string arithmetic, and
the float cases that would produce infinities (division by zero,
zero to a negative power) or complex values (fractional powers), are
model errors. -/
def cellArith (op : ArithOp) (a b : Cell) : Except String Cell :=
  match a, b with
  | .str x, .str y =>
    match op with
    | .add => .ok (.str (x ++ y))
    | _ => .error "unsupported operand types for arithmetic on strings"
  | .str _, _ => .error "unsupported operand types mixing string and number"
  | _, .str _ => .error "unsupported operand types mixing string and number"
  | .nan, _ => .ok .nan
  | _, .nan => .ok .nan
  | _, _ =>
    match cellNum a, cellNum b with
    | some x, some y =>
      match op with
      | .add => .ok (.num (x + y))
      | .sub => .ok (.num (x - y))
      | .mul => .ok (.num (x * y))
      | .div => if y = 0 then .error "division by zero (infinity not modelled)"
                else .ok (.num (x / y))
      | .mod => if y = 0 then .error "modulo by zero (NaN not modelled)"
                else .ok (.num (pyMod x y))
      | .pow =>
        if y.den ≠ 1 then .error "fractional exponent not modelled"
        else if x = 0 ∧ y.num < 0 then .error "zero to a negative power"
        else .ok (.num (x ^ y.num))
    | _, _ => .error "non-numeric operand"

/-- `_apply_operator` on two cells for a comparison operator.  Numeric
comparisons coerce booleans to 0/1; any comparison involving `NaN` is
`False` except `!=`, which is `True`; string/number equality is `False`
(`!=` `True`), and string/number relational comparison is an error, as in
Python. -/
def cellCmp (op : CmpOp) (a b : Cell) : Except String Cell :=
  match a, b with
  | .str x, .str y =>
    match op with
    | .eq => .ok (.bool (x = y))
    | .ne => .ok (.bool (x ≠ y))
    | .lt => .ok (.bool (strLtB x y))
    | .le => .ok (.bool (strLeB x y))
    | .gt => .ok (.bool (strLtB y x))
    | .ge => .ok (.bool (strLeB y x))
  | .nan, _ => .ok (.bool (op matches .ne))
  | _, .nan => .ok (.bool (op matches .ne))
  | .str _, _ =>
    match op with
    | .eq => .ok (.bool false)
    | .ne => .ok (.bool true)
    | _ => .error "relational comparison between string and number"
  | _, .str _ =>
    match op with
    | .eq => .ok (.bool false)
    | .ne => .ok (.bool true)
    | _ => .error "relational comparison between string and number"
  | _, _ =>
    match cellNum a, cellNum b with
    | some x, some y =>
      match op with
      | .eq => .ok (.bool (x = y))
      | .ne => .ok (.bool (x ≠ y))
      | .lt => .ok (.bool (x < y))
      | .le => .ok (.bool (x ≤ y))
      | .gt => .ok (.bool (y < x))
      | .ge => .ok (.bool (y ≤ x))
    | _, _ => .error "non-numeric operand"

/-- Elementwise `&` of two series entries: defined on boolean cells, a
`TypeError` otherwise (float series `&` raises in pandas; integer bitwise
`&` is outside the model). -/
def cellAnd (a b : Cell) : Except String Cell :=
  match a, b with
  | .bool x, .bool y => .ok (.bool (x && y))
  | _, _ => .error "unsupported operand types for elementwise and"

/-- Elementwise `|` of two series entries. -/
def cellOr (a b : Cell) : Except String Cell :=
  match a, b with
  | .bool x, .bool y => .ok (.bool (x || y))
  | _, _ => .error "unsupported operand types for elementwise or"

/-- Unary minus on a cell (`-series`); numeric only. -/
def cellNeg (a : Cell) : Except String Cell :=
  match a with
  | .nan => .ok .nan
  | _ =>
    match cellNum a with
    | some x => .ok (.num (-x))
    | none => .error "unary minus on non-numeric operand"

/-- Elementwise combination of two series with a fallible cell operation
(first failure aborts, as the underlying pandas operation raises for the
whole series). -/
def zipCells (f : Cell → Cell → Except String Cell) :
    List Cell → List Cell → Except String (List Cell)
  | a :: as_, b :: bs => do
    let c ← f a b
    let rest ← zipCells f as_ bs
    .ok (c :: rest)
  | _, _ => .ok []

/-- Elementwise application of a fallible unary cell operation. -/
def mapCells (f : Cell → Except String Cell) :
    List Cell → Except String (List Cell)
  | [] => .ok []
  | a :: as_ => do
    let c ← f a
    let rest ← mapCells f as_
    .ok (c :: rest)

/-! The abstract syntax of the restricted rule grammar accepted by
`RuleEvaluator._validate`: boolean `and`/`or` over one-or-more operands
(`ast.BoolOp` keeps `values[0]` plus the remaining operands), binary
arithmetic, unary `+`/`-`/`not`, chained comparisons (`ast.Compare` keeps
the leftmost operand plus an `(op, comparator)` chain), names, and
constants.  The operand lists are represented by the mutually inductive
`ExprList`/`CmpList` so that evaluation is structural recursion. -/
mutual
inductive Expr where
  | boolOp (isAnd : Bool) (first : Expr) (rest : ExprList)
  | binOp (op : ArithOp) (lhs rhs : Expr)
  | unaryOp (op : UnOp) (operand : Expr)
  | compare (lhs : Expr) (rest : CmpList)
  | name (id : String)
  | const (value : Cell)
  deriving Repr

inductive ExprList where
  | nil
  | cons (e : Expr) (rest : ExprList)
  deriving Repr

inductive CmpList where
  | nil
  | cons (op : CmpOp) (e : Expr) (rest : CmpList)
  deriving Repr
end

/-- Result of `_eval_node`: a scalar (from a constant) or a series. -/
inductive EvalRes where
  | scalar (c : Cell)
  | series (l : List Cell)
  deriving DecidableEq, Repr

/-- `_ensure_series`: reindexing a series over the frame's own index is
the identity; a scalar broadcasts to the full index length. -/
def ensureSeries (n : Nat) : EvalRes → List Cell
  | .scalar c => List.replicate n c
  | .series l => l

/-- `context[column]` lookup (column names in a frame are unique). -/
def lookupCtx (ctx : List (String × List Cell)) (id : String) : Option (List Cell) :=
  (ctx.find? (fun p => p.1 = id)).map (fun p => p.2)

mutual
/-- `RuleEvaluator._eval_node` over a context of named columns sharing an
index of length `n`. -/
def evalNode (ctx : List (String × List Cell)) (n : Nat) :
    Expr → Except String EvalRes
  | .boolOp isAnd first rest => do
    let fv ← evalNode ctx n first
    let out ← evalBoolRest ctx n isAnd (ensureSeries n fv) rest
    .ok (.series out)
  | .binOp op lhs rhs => do
    let lv ← evalNode ctx n lhs
    let rv ← evalNode ctx n rhs
    let out ← zipCells (cellArith op) (ensureSeries n lv) (ensureSeries n rv)
    .ok (.series out)
  | .unaryOp op operand => do
    let v ← evalNode ctx n operand
    let s := ensureSeries n v
    match op with
    | .uadd => .ok (.series s)
    | .usub => do
      let out ← mapCells cellNeg s
      .ok (.series out)
    | .unot => .ok (.series (s.map (fun c => Cell.bool (! cellTruthy c))))
  | .compare lhs rest => do
    let lv ← evalNode ctx n lhs
    let out ← evalCmpRest ctx n (ensureSeries n lv)
      (List.replicate n (Cell.bool true)) rest
    .ok (.series out)
  | .name id =>
    match lookupCtx ctx id with
    | none => .error ("Unknown identifier in expression: " ++ id)
    | some col => .ok (.series col)
  | .const c => .ok (.scalar c)

/-- The `for value_node in node.values[1:]` fold of a `BoolOp`. -/
def evalBoolRest (ctx : List (String × List Cell)) (n : Nat) (isAnd : Bool)
    (acc : List Cell) : ExprList → Except String (List Cell)
  | .nil => .ok acc
  | .cons e rest => do
    let v ← evalNode ctx n e
    let acc' ← zipCells (if isAnd then cellAnd else cellOr) acc (ensureSeries n v)
    evalBoolRest ctx n isAnd acc' rest

/-- The `for op, comparator in zip(node.ops, node.comparators)` fold of a
`Compare` node: each pairwise comparison is AND-ed into the accumulator
and the left operand advances to the comparator. -/
def evalCmpRest (ctx : List (String × List Cell)) (n : Nat) (left : List Cell)
    (acc : List Cell) : CmpList → Except String (List Cell)
  | .nil => .ok acc
  | .cons op e rest => do
    let rv ← evalNode ctx n e
    let rs := ensureSeries n rv
    let comparison ← zipCells (cellCmp op) left rs
    let acc' ← zipCells cellAnd acc comparison
    evalCmpRest ctx n rs acc' rest
end

/-- A date-indexed pandas DataFrame: named columns over an index of
`nrows` dates (`wfFrame` states every column has the index's length). -/
structure Frame where
  cols : List (String × List Cell)
  nrows : Nat

/-- Every column has the index's length. -/
def wfFrame (f : Frame) : Prop := ∀ p ∈ f.cols, p.2.length = f.nrows

/-- `frame.empty` in pandas: any axis has length zero. -/
def frameEmpty (f : Frame) : Bool := f.nrows == 0 || f.cols.isEmpty

/-- `RuleEvaluator.evaluate`: empty series for an empty frame, otherwise
evaluate the tree over the frame's columns and coerce the result with
`.astype(bool)`. -/
def ruleEvaluate (e : Expr) (f : Frame) : Except String (List Cell) :=
  if frameEmpty f then .ok []
  else do
    let r ← evalNode f.cols f.nrows e
    .ok ((ensureSeries f.nrows r).map (fun c => Cell.bool (cellTruthy c)))

/-! ### Strategy signal classification (signals/__init__.py) -/

/-- `_latest_bool`: `False` on an empty series, `False` on a NaN latest
value, else the truthiness of the latest value. -/
def latestBool (s : List Cell) : Bool :=
  match s.getLast? with
  | none => false
  | some v => if cellIsNA v then false else cellTruthy v

/-- Per-symbol outputs of `StrategyEngine.evaluate` relevant to signal
classification. -/
structure SymbolFlags where
  entry_rule : Bool
  exit_rule : Bool
  signal : String
  deriving DecidableEq, Repr

/-- The per-symbol body of `StrategyEngine.evaluate` (lines 269-282):
entry/exit series via the rule evaluator, latest-value flags, and the
`EXIT`/`BUY`/`HOLD` classification.  The rank-score and feature
computations are omitted: they cannot change the signal, only abort the
symbol's evaluation (in which case the symbol is not evaluated at all). -/
def evaluateSymbolSignal (entryExpr exitExpr : Expr) (data : Frame) :
    Except String SymbolFlags := do
  let entrySeries ← ruleEvaluate entryExpr data
  let exitSeries ← ruleEvaluate exitExpr data
  let entryFlag := latestBool entrySeries
  let exitFlag := latestBool exitSeries
  .ok { entry_rule := entryFlag, exit_rule := exitFlag
        signal := if exitFlag then "EXIT" else if entryFlag then "BUY" else "HOLD" }

/-! ### Backtest engine (backtest/__init__.py)

The day-stepping loop is modelled faithfully over per-day inputs: each
`DayData` packs what `StrategyEngine.evaluate` returns for the day (the
per-symbol indicators' closes and the signals frame) and the curated
price store the rebalance engine reads for that day; the business-day
calendar produced by `pd.bdate_range` is the list of days itself.  The
two transcendental float functions the metrics use (`math.sqrt` and
float `**` with fractional exponents) are taken as function parameters so
the model stays executable; every theorem quantifies over them. -/

/-- The `backtest:` configuration section. -/
structure BacktestCfg where
  initial_cash : ℚ
  slippage_pct : ℚ
  commission_per_trade : ℚ
  trading_days_per_year : Int
  annual_risk_free_rate : ℚ
  deriving DecidableEq, Repr

/-- `BacktestTrade` dataclass (dates as ISO strings, as persisted). -/
structure BacktestTrade where
  dateStr : String
  symbol : String
  side : String
  quantity : ℚ
  price : ℚ
  fill_price : ℚ
  commission : ℚ
  slippage_cost : ℚ
  deriving DecidableEq, Repr

/-- One row of the backtest equity curve (values `_round`-ed to 8
decimals, as the source stores them). -/
structure EquityRecord where
  dateStr : String
  equity : ℚ
  cash : ℚ
  daily_return : ℚ
  drawdown : ℚ
  deriving DecidableEq, Repr

/-- The metrics mapping of `BacktestEngine._compute_metrics`.  `sortino`
uses `none` for the `float("inf")` sentinel produced when there are
returns but none negative. -/
structure Metrics where
  startDate : Option String
  endDate : Option String
  trading_days : Nat
  initial_cash : ℚ
  final_equity : ℚ
  total_return : ℚ
  cagr : ℚ
  volatility : ℚ
  sharpe : ℚ
  sortino : Option ℚ
  max_drawdown : ℚ
  hit_rate : ℚ
  turnover_total : ℚ
  turnover_average : ℚ
  rebalance_events : Nat
  trades_executed : Nat
  annual_risk_free_rate : ℚ
  label : Option String
  deriving DecidableEq, Repr

/-- Inputs of one trading day: the timestamp attributes, the ISO date
string, the day's strategy output (per-symbol close from the evaluation
indicators, `none` for missing/NaN closes, plus the signals frame), and
the curated store the rebalance engine reads. -/
structure DayData where
  ts : Timestamp
  dateStr : String
  evals : List (String × Option ℚ)
  frame : List SignalRow
  curated : String → Option ℚ

/-- `_PortfolioState`: cash plus a symbol → qty dict. -/
structure PortfolioState where
  cash : ℚ
  positions : List (String × ℚ)
  deriving Repr

/-- Dict read with default 0 (`state.positions.get(symbol, 0.0)`). -/
def qtyGet (ps : List (String × ℚ)) (s : String) : ℚ :=
  ((ps.find? (fun e => e.1 = s)).map (fun e => e.2)).getD 0

/-- Dict write (`state.positions[symbol] = q`). -/
def qtySet (ps : List (String × ℚ)) (s : String) (q : ℚ) : List (String × ℚ) :=
  if ps.any (fun e => e.1 = s) then
    ps.map (fun e => if e.1 = s then (e.1, q) else e)
  else ps ++ [(s, q)]

/-- Dict delete (`del state.positions[symbol]`). -/
def qtyDel (ps : List (String × ℚ)) (s : String) : List (String × ℚ) :=
  ps.filter (fun e => ¬ e.1 = s)

/-- `_PortfolioState.snapshot`: positions with `|qty| > 1e-9`, sorted by
symbol (dict iteration is insertion-ordered, but `sorted(...)` is used). -/
def stateSnapshot (st : PortfolioState) : HoldingsSnapshot :=
  { positions :=
      ((sortLe (fun a b => strLeB a.1 b.1) st.positions).filter
        (fun e => eps9 < |e.2|)).map (fun e => { symbol := e.1, qty := e.2 })
    cash := some st.cash }

/-- `_extract_prices`: close per evaluated symbol; missing or NaN close
raises. -/
def extractPrices : List (String × Option ℚ) → Except String (List (String × ℚ))
  | [] => .ok []
  | (s, c) :: rest =>
    match c with
    | none => .error ("Curated data missing closing price for " ++ s)
    | some p => do
      let tail ← extractPrices rest
      .ok ((s, p) :: tail)

/-- `_assert_price_coverage`: every held symbol must be priced. -/
def assertPriceCoverage (pm : List (String × ℚ)) (symbols : List String) :
    Except String Unit :=
  if symbols.all (fun s => pm.any (fun e => e.1 = s)) then .ok ()
  else .error "Missing prices for positions"

/-- `_portfolio_equity`: cash plus *qty × price* over positions, raising
on a missing price. -/
def portfolioEquity (st : PortfolioState) (pm : List (String × ℚ)) :
    Except String ℚ :=
  st.positions.foldlM (fun acc e =>
    match priceLookup pm e.1 with
    | none => .error ("Missing price for symbol " ++ e.1)
    | some p => .ok (acc + e.2 * p)) st.cash

/-- One order's execution in `BacktestEngine._execute_orders`: skip
quantities below `1e-9`, fill with slippage, debit commission, update and
prune the position dict, and record the trade.  The negative-cash check
only logs a warning in the source and is a no-op here. -/
def executeOrder (slippage commission : ℚ) (pm : List (String × ℚ))
    (dateStr : String) (st : PortfolioState) (order : RebalanceOrder) :
    Except String (PortfolioState × Option BacktestTrade) :=
  match priceLookup pm order.symbol with
  | none => .error ("Missing price for symbol " ++ order.symbol)
  | some price =>
    let quantity := order.quantity
    if |quantity| < eps9 then .ok (st, none)
    else if order.side = "BUY" then
      let fill := price * (1 + slippage)
      let cash' := st.cash - quantity * fill - commission
      let positions' := qtySet st.positions order.symbol
        (qtyGet st.positions order.symbol + quantity)
      .ok ({ cash := cash', positions := positions' },
        some { dateStr := dateStr, symbol := order.symbol, side := order.side
               quantity := roundTo 8 quantity, price := roundTo 8 price
               fill_price := roundTo 8 fill, commission := roundTo 8 commission
               slippage_cost := roundTo 8 ((fill - price) * quantity) })
    else if order.side = "SELL" then
      let fill := price * (1 - slippage)
      let cash' := st.cash + quantity * fill - commission
      let newQty := qtyGet st.positions order.symbol - quantity
      let positions' :=
        if |newQty| < eps9 then qtyDel st.positions order.symbol
        else qtySet st.positions order.symbol newQty
      .ok ({ cash := cash', positions := positions' },
        some { dateStr := dateStr, symbol := order.symbol, side := order.side
               quantity := roundTo 8 quantity, price := roundTo 8 price
               fill_price := roundTo 8 fill, commission := roundTo 8 commission
               slippage_cost := roundTo 8 ((price - fill) * quantity) })
    else .error ("Unsupported side " ++ order.side)

/-- `_execute_orders`: orders sorted by symbol, folded through
`executeOrder`, collecting the executed trades. -/
def executeOrders (slippage commission : ℚ) (pm : List (String × ℚ))
    (dateStr : String) (st : PortfolioState) (orders : List RebalanceOrder) :
    Except String (PortfolioState × List BacktestTrade) :=
  (sortLe (fun a b => strLeB a.symbol b.symbol) orders).foldlM
    (fun acc order => do
      let (st', trade) ← executeOrder slippage commission pm dateStr acc.1 order
      .ok (st', acc.2 ++ trade.toList)) (st, [])

/-- Running accumulator of the day loop in `BacktestEngine.run`. -/
structure LoopAcc where
  state : PortfolioState
  equityRecords : List EquityRecord
  trades : List BacktestTrade
  peakEquity : ℚ
  previousEquity : ℚ
  turnover_total : ℚ
  rebalance_events : Nat

/-- One iteration of the `for current_ts in trading_days` loop. -/
def runDay (engine : EngineState) (bt : BacktestCfg) (acc : LoopAcc)
    (day : DayData) : Except String LoopAcc := do
  let pm ← extractPrices day.evals
  let _ ← assertPriceCoverage pm (acc.state.positions.map (fun e => e.1))
  let forceRebalance := acc.state.positions.isEmpty
  let rb ← engineEvaluate engine day.ts (stateSnapshot acc.state) day.frame
    day.curated forceRebalance
  let (state', dayTrades, turnover', events') ←
    if rb.orders.isEmpty then
      .ok (acc.state, ([], acc.turnover_total, acc.rebalance_events))
    else do
      let (st', trades) ← executeOrders bt.slippage_pct bt.commission_per_trade
        pm day.dateStr acc.state rb.orders
      .ok (st', (trades, acc.turnover_total + rb.turnover, acc.rebalance_events + 1))
  let equity ← portfolioEquity state' pm
  let dailyReturn := if acc.equityRecords.isEmpty then 0
    else equity / acc.previousEquity - 1
  let peak' := max acc.peakEquity equity
  let drawdown := if 0 < peak' then equity / peak' - 1 else 0
  .ok { state := state'
        equityRecords := acc.equityRecords ++
          [{ dateStr := day.dateStr, equity := roundTo 8 equity
             cash := roundTo 8 state'.cash, daily_return := roundTo 8 dailyReturn
             drawdown := roundTo 8 drawdown }]
        trades := acc.trades ++ dayTrades
        peakEquity := peak'
        previousEquity := equity
        turnover_total := turnover'
        rebalance_events := events' }

/-- Arithmetic mean of a list (0 for an empty list, as the guarded numpy
calls produce). -/
def listMean (l : List ℚ) : ℚ := if l.isEmpty then 0 else l.sum / l.length

/-- Population variance (`ddof=0`); the source's `std` is its square
root via `sqrtFn`. -/
def listVariance (l : List ℚ) : ℚ :=
  if l.isEmpty then 0
  else (l.map (fun r => (r - listMean l) ^ 2)).sum / l.length

/-- `BacktestEngine._compute_metrics`, with `sqrtFn`/`powFn` standing for
`math.sqrt` and float `**`. -/
def computeMetrics (bt : BacktestCfg) (sqrtFn : ℚ → ℚ) (powFn : ℚ → ℚ → ℚ)
    (equityRecords : List EquityRecord) (turnoverTotal : ℚ)
    (rebalanceEvents : Nat) (tradesCount : Nat) (label : Option String) : Metrics :=
  let initialCash := bt.initial_cash
  let tdy : ℚ := (max bt.trading_days_per_year 1 : Int)
  let annualRf := bt.annual_risk_free_rate
  let tradingDays := equityRecords.length
  let finalEquity := if tradingDays ≠ 0 then
    ((equityRecords.getLast?).map (fun r => r.equity)).getD initialCash
    else initialCash
  let totalReturn := if initialCash ≠ 0 then finalEquity / initialCash - 1 else 0
  let years : ℚ := tradingDays / tdy
  let cagr := if 0 < years ∧ 0 < finalEquity ∧ 0 < initialCash then
    powFn (finalEquity / initialCash) (1 / years) - 1 else 0
  let returns := (equityRecords.map (fun r => r.daily_return)).drop 1
  let meanReturn := listMean returns
  let stdReturn := if returns.isEmpty then 0 else sqrtFn (listVariance returns)
  let volatility := stdReturn * sqrtFn tdy
  let rfDaily := powFn (1 + annualRf) (1 / tdy) - 1
  let excess := returns.map (fun r => r - rfDaily)
  let sharpe := if 0 < stdReturn then listMean excess / stdReturn * sqrtFn tdy else 0
  let downside := returns.filter (fun r => r < 0)
  let downsideStd := if downside.isEmpty then 0 else sqrtFn (listVariance downside)
  let sortino : Option ℚ :=
    if 0 < downsideStd then some ((meanReturn - rfDaily) / downsideStd * sqrtFn tdy)
    else if ¬ returns.isEmpty ∧ returns.all (fun r => 0 ≤ r) then none
    else some 0
  let maxDrawdown := if tradingDays ≠ 0 then
    ((equityRecords.map (fun r => r.drawdown)).min?).getD 0 else 0
  let positiveDays := returns.countP (fun r => 0 < r)
  let hitRate : ℚ := if returns.isEmpty then 0 else (positiveDays : ℚ) / returns.length
  let turnoverAverage := if rebalanceEvents ≠ 0 then
    turnoverTotal / (rebalanceEvents : ℚ) else 0
  { startDate := (equityRecords.head?).map (fun r => r.dateStr)
    endDate := (equityRecords.getLast?).map (fun r => r.dateStr)
    trading_days := tradingDays
    initial_cash := roundTo 8 initialCash
    final_equity := roundTo 8 finalEquity
    total_return := roundTo 8 totalReturn
    cagr := roundTo 8 cagr
    volatility := roundTo 8 volatility
    sharpe := roundTo 8 sharpe
    sortino := sortino.map (roundTo 8)
    max_drawdown := roundTo 8 maxDrawdown
    hit_rate := roundTo 8 hitRate
    turnover_total := roundTo 8 turnoverTotal
    turnover_average := roundTo 8 turnoverAverage
    rebalance_events := rebalanceEvents
    trades_executed := tradesCount
    annual_risk_free_rate := roundTo 8 annualRf
    label := label }

/-- Result of `BacktestEngine.run`: metrics, the equity and trades
tables, and the persistence record (the manifest and output paths are
populated only by a non-dry run; the files' contents are the tables
themselves). -/
structure BacktestRunResult where
  metrics : Metrics
  equity_curve : List EquityRecord
  trades : List BacktestTrade
  manifest : List (String × String)
  persisted : Bool

/-- `BacktestEngine.run`: validates the day range, folds the day loop
from the initial all-cash state, computes metrics, and (when not
`dry_run`) records the artefact writes in the manifest.  Everything up to
and including the metrics computation is independent of `dryRun`. -/
def runBacktest (engine : EngineState) (bt : BacktestCfg)
    (sqrtFn : ℚ → ℚ) (powFn : ℚ → ℚ → ℚ) (days : List DayData)
    (outputDir : String) (label : Option String) (includeChart : Bool)
    (dryRun : Bool) : Except String BacktestRunResult :=
  if days.isEmpty then
    .error "No trading days found between start and end dates"
  else do
    let initAcc : LoopAcc :=
      { state := { cash := bt.initial_cash, positions := [] }
        equityRecords := [], trades := [], peakEquity := bt.initial_cash
        previousEquity := bt.initial_cash, turnover_total := 0
        rebalance_events := 0 }
    let acc ← days.foldlM (runDay engine bt) initAcc
    let metrics := computeMetrics bt sqrtFn powFn acc.equityRecords
      acc.turnover_total acc.rebalance_events acc.trades.length label
    let manifest : List (String × String) :=
      if dryRun then []
      else
        [("metrics", outputDir ++ "/metrics.json"),
         ("equity_curve", outputDir ++ "/equity_curve.csv"),
         ("trades", outputDir ++ "/trades.csv")] ++
        (if includeChart then
          [("equity_curve_chart", outputDir ++ "/equity_curve.html")] else []) ++
        [("manifest", outputDir ++ "/manifest.json")]
    .ok { metrics := metrics
          equity_curve := acc.equityRecords
          trades := acc.trades
          manifest := manifest
          persisted := ¬ dryRun }

/-! ### Concrete scenario used for claim C1 -/

/-- A plain configuration: monthly cadence, 3 max positions, equal
weighting, no min-weight, 90% cash buffer, no turnover cap. -/
def c1cfg : RebalanceConfig :=
  { cadence := some "monthly", max_positions := 3, equal_weight := some true,
    min_weight := none, cash_buffer := some (9 / 10), turnover_cap_pct := none }

/-- Curated store holding only AAPL at close 100. -/
def c1price : String → Option ℚ := fun s => if s = "AAPL" then some 100 else none

/-- Holdings: 10 AAPL shares and 1000 cash. -/
def c1holdings : HoldingsSnapshot :=
  { positions := [{ symbol := "AAPL", qty := 10 }], cash := some 1000 }

/-- Signals: a single HOLD row for AAPL. -/
def c1signals : List SignalRow := [{ symbol := "AAPL", signal := "HOLD", rank_score := 1 }]

/-! ### Concrete scenarios used for the other claims -/

/-- Score-weighted configuration with a 0.3 minimum weight. -/
def c4cfg : RebalanceConfig :=
  { cadence := some "monthly", max_positions := 3, equal_weight := some false,
    min_weight := some (3 / 10), cash_buffer := some (1 / 10), turnover_cap_pct := none }

/-- Three symbols each trading at 10. -/
def c4price : String → Option ℚ := fun s =>
  if s = "AAPL" ∨ s = "MSFT" ∨ s = "NVDA" then some 10 else none

/-- Three BUY signals with scores 10, 1, 1. -/
def c4signals : List SignalRow :=
  [{ symbol := "AAPL", signal := "BUY", rank_score := 10 },
   { symbol := "MSFT", signal := "BUY", rank_score := 1 },
   { symbol := "NVDA", signal := "BUY", rank_score := 1 }]

/-- The c1 configuration with a turnover cap of 1 added. -/
def c5cfg : RebalanceConfig :=
  { cadence := some "monthly", max_positions := 3, equal_weight := some true,
    min_weight := none, cash_buffer := some (9 / 10), turnover_cap_pct := some 1 }

/-- Configuration whose cash buffer and minimum weight leave no capacity:
`available_weight = 0.5 < min_weight = 0.6`. -/
def c7cfg : RebalanceConfig :=
  { cadence := some "monthly", max_positions := 3, equal_weight := some true,
    min_weight := some (6 / 10), cash_buffer := some (1 / 2), turnover_cap_pct := none }

/-- An EXIT signal for the held symbol. -/
def c7signals : List SignalRow := [{ symbol := "AAPL", signal := "EXIT", rank_score := 0 }]

/-- Holdings whose total value `-2000 + 10 × 100 = -1000` is non-positive. -/
def c10holdings : HoldingsSnapshot :=
  { positions := [{ symbol := "AAPL", qty := 10 }], cash := some (-2000) }

/-- Default-constraint configuration (no min-weight, no buffer, no cap). -/
def c10cfg : RebalanceConfig :=
  { cadence := some "monthly", max_positions := 3, equal_weight := some true,
    min_weight := none, cash_buffer := none, turnover_cap_pct := none }

/-- A one-row frame with a single numeric `close` column of value 2. -/
def c2frame : Frame := { cols := [("close", [Cell.num 2])], nrows := 1 }

/-- The arithmetic rule expression `close + 1`. -/
def c2expr : Expr := .binOp .add (.name "close") (.const (Cell.num 1))

/-- Entry rule `close > sma_100` and exit rule `close < sma_100` over a
one-row frame where close is above the SMA. -/
def c9entry : Expr := .compare (.name "close") (.cons .gt (.name "sma_100") .nil)

/-- Exit rule `close < sma_100`. -/
def c9exit : Expr := .compare (.name "close") (.cons .lt (.name "sma_100") .nil)

/-- Frame with close 2 above sma_100 1. -/
def c9frame : Frame :=
  { cols := [("close", [Cell.num 2]), ("sma_100", [Cell.num 1])], nrows := 1 }

/-- C1: the spec says every `RebalanceOrder` has `quantity > 0` (after the
`1e-6` threshold) for both BUY and SELL sides.  Evaluating the engine at a
concrete reduction scenario (hold 10 AAPL at price 100 with cash 1000 and
a 0.9 cash buffer, so the target drops from weight 0.5 to 0.1) produces a
SELL order whose `quantity` is `-8`: `_orders_and_turnover` stores the
signed `round(delta_qty, 6)` rather than its absolute value.  This
contradicts the positive-quantity convention used by `_exit_orders` and
assumed by `BacktestEngine._execute_orders` (whose SELL branch credits
`quantity * fill_price` and subtracts `quantity` from the position, which
is only correct for positive quantities), so the claim is right and the
code is the slip. -/
theorem sell_order_quantity_is_negative_delta :
    ((engineInit c1cfg).bind fun st =>
      engineEvaluate st ⟨4, true⟩ c1holdings c1signals c1price false) =
      Except.ok
        { status := "REBALANCE", cash_buffer := 9 / 10, turnover := 1 / 5,
          targets := [{ symbol := "AAPL", target_weight := 1 / 10,
                        rationale := some "Maintain position" }],
          orders := [{ symbol := "AAPL", side := "SELL", quantity := -8, notional := 800 }],
          notes := ["Selected symbols for allocation"] } ∧
    ((-8 : ℚ) < 0) := by
  constructor
  · with_unfolding_all rfl
  · norm_num

/-! ### Claim C3: cadence validation point -/

/-- C3 counterexample: the cadence string `"daily"` is neither `monthly`
nor `weekly`, yet `RebalanceEngine.__init__` accepts it (only a blank
cadence fails construction), and `evaluate` then raises the bad-cadence
error at evaluation time. -/
theorem bad_cadence_passes_construction_and_fails_evaluation :
    engineInit { cadence := some "daily", max_positions := 3,
                 equal_weight := some true, min_weight := none,
                 cash_buffer := none, turnover_cap_pct := none } =
      Except.ok
        { cadence := "daily", max_positions := 3, equal_weight := true,
          min_weight := 0, cash_buffer := 0, turnover_cap := none } ∧
    engineEvaluate
        { cadence := "daily", max_positions := 3, equal_weight := true,
          min_weight := 0, cash_buffer := 0, turnover_cap := none }
        ⟨4, true⟩ c1holdings c1signals c1price false =
      Except.error "Unsupported rebalance cadence: daily" := by
  constructor
  · with_unfolding_all rfl
  · with_unfolding_all rfl

/-- C3 amended: construction fails only for a cadence that is blank after
stripping/lower-casing; every other cadence string constructs an engine
whose cadence is the normalised string, and when that string is neither
`monthly` nor `weekly` every non-forced `evaluate` call raises the
`Unsupported rebalance cadence` error at evaluation time. -/
theorem unsupported_cadence_fails_at_evaluation (cfg : RebalanceConfig)
    (c : String) (hnorm : strLower (strTrim (cfg.cadence.getD "")) = c)
    (hne : c ≠ "") :
    engineInit cfg =
      Except.ok
        { cadence := c, max_positions := cfg.max_positions,
          equal_weight := cfg.equal_weight.getD true,
          min_weight := cfg.min_weight.getD 0,
          cash_buffer := cfg.cash_buffer.getD 0,
          turnover_cap := cfg.turnover_cap_pct } ∧
    (c ≠ "monthly" → c ≠ "weekly" →
      ∀ (asOf : Timestamp) (holdings : HoldingsSnapshot) (signals : List SignalRow)
        (priceData : String → Option ℚ),
        engineEvaluate
          { cadence := c, max_positions := cfg.max_positions,
            equal_weight := cfg.equal_weight.getD true,
            min_weight := cfg.min_weight.getD 0,
            cash_buffer := cfg.cash_buffer.getD 0,
            turnover_cap := cfg.turnover_cap_pct }
          asOf holdings signals priceData false =
        Except.error ("Unsupported rebalance cadence: " ++ c)) := by
  constructor
  · simp only [engineInit, hnorm]
    rw [if_neg hne]
  · intro hm hw asOf holdings signals priceData
    simp only [engineEvaluate, isRebalanceDay, Bool.false_eq_true, if_false]
    rw [if_neg hm, if_neg hw]

/-- Witness for the C3 amended theorem at cadence `" Daily "`. -/
theorem unsupported_cadence_fails_at_evaluation_witness :
    engineInit { cadence := some " Daily ", max_positions := 3,
                 equal_weight := some true, min_weight := none,
                 cash_buffer := none, turnover_cap_pct := none } =
      Except.ok
        { cadence := "daily", max_positions := 3, equal_weight := true,
          min_weight := 0, cash_buffer := 0, turnover_cap := none } ∧
    ("daily" ≠ "monthly" → "daily" ≠ "weekly" →
      ∀ (asOf : Timestamp) (holdings : HoldingsSnapshot) (signals : List SignalRow)
        (priceData : String → Option ℚ),
        engineEvaluate
          { cadence := "daily", max_positions := 3, equal_weight := true,
            min_weight := 0, cash_buffer := 0, turnover_cap := none }
          asOf holdings signals priceData false =
        Except.error ("Unsupported rebalance cadence: " ++ "daily")) := by
  have h := unsupported_cadence_fails_at_evaluation
    { cadence := some " Daily ", max_positions := 3,
      equal_weight := some true, min_weight := none,
      cash_buffer := none, turnover_cap_pct := none }
    "daily" (by with_unfolding_all rfl) (by decide)
  simpa using h

/-! ### Supporting lemmas -/

@[simp] theorem exceptOkBind {ε α β : Type} (a : α) (f : α → Except ε β) :
    (bind (Except.ok a) f : Except ε β) = f a := rfl

@[simp] theorem exceptErrorBind {ε α β : Type} (e : ε) (f : α → Except ε β) :
    (bind (Except.error e) f : Except ε β) = Except.error e := rfl

@[simp] theorem exceptPure {ε α : Type} (a : α) :
    (pure a : Except ε α) = Except.ok a := rfl

theorem insertLe_perm {α : Type} (le : α → α → Bool) (x : α) (l : List α) :
    (insertLe le x l).Perm (x :: l) := by
  induction l with
  | nil => simp [insertLe]
  | cons y ys ih =>
    by_cases h : le x y = true
    · simp [insertLe, h]
    · simp only [insertLe, h, Bool.false_eq_true, if_false]
      exact (ih.cons y).trans (List.Perm.swap x y ys)

theorem sortLe_perm {α : Type} (le : α → α → Bool) (l : List α) :
    (sortLe le l).Perm l := by
  induction l with
  | nil => simp [sortLe]
  | cons x xs ih =>
    exact (insertLe_perm le x (sortLe le xs)).trans (ih.cons x)

theorem mem_sortLe {α : Type} (le : α → α → Bool) (l : List α) (x : α) :
    x ∈ sortLe le l ↔ x ∈ l := (sortLe_perm le l).mem_iff

theorem sortLe_map_sum (le : RebalanceTarget → RebalanceTarget → Bool)
    (l : List RebalanceTarget) :
    ((sortLe le l).map RebalanceTarget.target_weight).sum =
      (l.map RebalanceTarget.target_weight).sum :=
  ((sortLe_perm le l).map RebalanceTarget.target_weight).sum_eq

theorem sum_map_const_list {α : Type} (l : List α) (c : ℚ) :
    (l.map (fun _ => c)).sum = l.length * c := by
  induction l with
  | nil => simp
  | cons x xs ih => simp [ih]; ring

/-! String-order facts used for the sorted duplicate-free symbol sets. -/

theorem charListLt_irrefl (l : List Char) : charListLt l l = false := by
  induction l with
  | nil => rfl
  | cons a as ih => simp [charListLt, ih]

theorem charListLt_trans {a b c : List Char} (hab : charListLt a b = true)
    (hbc : charListLt b c = true) : charListLt a c = true := by
  induction a generalizing b c with
  | nil =>
    cases b with
    | nil => simp [charListLt] at hab
    | cons y ys =>
      cases c with
      | nil => simp [charListLt] at hbc
      | cons z zs => simp [charListLt]
  | cons x xs ih =>
    cases b with
    | nil => simp [charListLt] at hab
    | cons y ys =>
      cases c with
      | nil => simp [charListLt] at hbc
      | cons z zs =>
        simp only [charListLt] at hab hbc ⊢
        rcases lt_trichotomy x y with hxy | hxy | hxy
        · rcases lt_trichotomy y z with hyz | hyz | hyz
          · simp [lt_trans hxy hyz]
          · subst hyz; simp [hxy]
          · simp [lt_asymm hyz, hyz] at hbc
        · subst hxy
          simp only [lt_irrefl, if_false] at hab
          rcases lt_trichotomy x z with hxz | hxz | hxz
          · simp [hxz]
          · subst hxz
            simp only [lt_irrefl, if_false] at hbc
            simp [ih hab hbc]
          · simp [hxz, lt_asymm hxz] at hbc
        · simp [lt_asymm hxy, hxy] at hab

theorem charListLt_connex {a b : List Char} (h : charListLt a b = false)
    (hne : a ≠ b) : charListLt b a = true := by
  induction a generalizing b with
  | nil =>
    cases b with
    | nil => exact absurd rfl hne
    | cons y ys => simp [charListLt] at h
  | cons x xs ih =>
    cases b with
    | nil => simp [charListLt]
    | cons y ys =>
      simp only [charListLt] at h ⊢
      rcases lt_trichotomy x y with hxy | hxy | hxy
      · simp [hxy] at h
      · subst hxy
        simp only [lt_irrefl, if_false] at h ⊢
        exact ih h (by intro heq; exact hne (by rw [heq]))
      · simp [hxy, lt_asymm hxy]

theorem strLtB_irrefl (s : String) : strLtB s s = false := charListLt_irrefl s.data

theorem strLtB_trans {a b c : String} (hab : strLtB a b = true)
    (hbc : strLtB b c = true) : strLtB a c = true := charListLt_trans hab hbc

theorem strLtB_connex {a b : String} (h : strLtB a b = false) (hne : a ≠ b) :
    strLtB b a = true := by
  refine charListLt_connex h (fun heq => hne ?_)
  cases a; cases b; simp_all

theorem mem_insertSortedDedup (s x : String) (l : List String) :
    x ∈ insertSortedDedup s l ↔ x = s ∨ x ∈ l := by
  induction l with
  | nil => simp [insertSortedDedup]
  | cons y ys ih =>
    by_cases h1 : s = y
    · subst h1
      simp only [insertSortedDedup, if_pos rfl]
      constructor
      · intro h; exact Or.inr h
      · rintro (rfl | h)
        · exact List.mem_cons_self _ _
        · exact h
    · by_cases h2 : strLtB s y = true
      · simp only [insertSortedDedup, if_neg h1, if_pos h2]
        simp only [List.mem_cons]
      · simp only [insertSortedDedup, if_neg h1, h2, Bool.false_eq_true, if_false]
        simp only [List.mem_cons, ih]
        tauto

theorem sorted_insertSortedDedup (s : String) (l : List String)
    (hl : l.Pairwise (fun a b => strLtB a b = true)) :
    (insertSortedDedup s l).Pairwise (fun a b => strLtB a b = true) := by
  induction l with
  | nil => simp [insertSortedDedup]
  | cons y ys ih =>
    rcases List.pairwise_cons.mp hl with ⟨hy, hys⟩
    by_cases h1 : s = y
    · simpa [insertSortedDedup, h1] using hl
    · by_cases h2 : strLtB s y = true
      · simp only [insertSortedDedup, if_neg h1, if_pos h2]
        refine List.pairwise_cons.mpr ⟨?_, hl⟩
        intro z hz
        rcases List.mem_cons.mp hz with rfl | hz'
        · exact h2
        · exact strLtB_trans h2 (hy z hz')
      · simp only [insertSortedDedup, if_neg h1, h2, Bool.false_eq_true, if_false]
        refine List.pairwise_cons.mpr ⟨?_, ih hys⟩
        intro z hz
        have h2f : strLtB s y = false := by simpa using h2
        rcases (mem_insertSortedDedup s z ys).mp hz with rfl | hz'
        · exact strLtB_connex h2f h1
        · exact hy z hz'

theorem nodup_of_sorted {l : List String}
    (h : l.Pairwise (fun a b => strLtB a b = true)) : l.Nodup := by
  refine h.imp ?_
  intro a b hab heq
  subst heq
  rw [strLtB_irrefl] at hab
  cases hab

theorem collectExitSymbols_sorted (frame : List SignalRow) (syms : List String) :
    (collectExitSymbols frame syms).Pairwise (fun a b => strLtB a b = true) := by
  suffices h : ∀ acc : List String,
      acc.Pairwise (fun a b => strLtB a b = true) →
      (frame.foldl (fun acc r =>
        if strUpper r.signal = "EXIT" ∧ syms.contains (strUpper r.symbol) then
          insertSortedDedup (strUpper r.symbol) acc
        else acc) acc).Pairwise (fun a b => strLtB a b = true) by
    exact h [] List.Pairwise.nil
  induction frame with
  | nil => intro acc hacc; simpa using hacc
  | cons r rest ih =>
    intro acc hacc
    simp only [List.foldl_cons]
    by_cases hc : strUpper r.signal = "EXIT" ∧ syms.contains (strUpper r.symbol) = true
    · rw [if_pos hc]
      exact ih _ (sorted_insertSortedDedup _ _ hacc)
    · rw [if_neg hc]
      exact ih _ hacc

theorem collectExitSymbols_nodup (frame : List SignalRow) (syms : List String) :
    (collectExitSymbols frame syms).Nodup :=
  nodup_of_sorted (collectExitSymbols_sorted frame syms)

/-! Facts about `_exit_orders`. -/

theorem exitOrderFor_spec (ps : List Position) (pm : List (String × ℚ))
    (s : String) (o : RebalanceOrder) (h : exitOrderFor ps pm s = some o) :
    o.symbol = s ∧ o.side = "SELL" := by
  unfold exitOrderFor at h
  cases hpl : posLookup ps s with
  | none => simp [hpl] at h
  | some pos =>
    simp only [hpl] at h
    by_cases hq : pos.qty = 0
    · simp [hq] at h
    · rw [if_neg hq] at h
      cases hpr : priceLookup pm s with
      | none => simp [hpr] at h
      | some p =>
        simp only [hpr, Option.some.injEq] at h
        subst h
        exact ⟨rfl, rfl⟩

theorem exitOrders_mem (l : List String) (ps : List Position)
    (pm : List (String × ℚ)) (s : String) (pos : Position) (p : ℚ)
    (hs : s ∈ l) (hpos : posLookup ps s = some pos) (hq : pos.qty ≠ 0)
    (hp : priceLookup pm s = some p) :
    ({ symbol := s, side := "SELL", quantity := roundTo 6 pos.qty,
       notional := roundTo 2 (|pos.qty| * p) } : RebalanceOrder) ∈ exitOrders l ps pm := by
  refine List.mem_filterMap.mpr ⟨s, hs, ?_⟩
  simp [exitOrderFor, hpos, hq, hp]

theorem exitOrders_shape (l : List String) (ps : List Position)
    (pm : List (String × ℚ)) (o : RebalanceOrder) (ho : o ∈ exitOrders l ps pm) :
    o.side = "SELL" ∧ o.symbol ∈ l := by
  rcases List.mem_filterMap.mp ho with ⟨s, hs, hfs⟩
  rcases exitOrderFor_spec ps pm s o hfs with ⟨hsym, hside⟩
  exact ⟨hside, hsym ▸ hs⟩

theorem exitOrders_symbols_nodup (l : List String) (ps : List Position)
    (pm : List (String × ℚ)) (hl : l.Nodup) :
    ((exitOrders l ps pm).map (fun o => o.symbol)).Nodup := by
  induction l with
  | nil => simp [exitOrders]
  | cons s rest ih =>
    rcases List.nodup_cons.mp hl with ⟨hs, hrest⟩
    have htail := ih hrest
    unfold exitOrders
    rw [List.filterMap_cons]
    cases hfs : exitOrderFor ps pm s with
    | none => exact htail
    | some o =>
      simp only [List.map_cons, List.nodup_cons]
      refine ⟨?_, htail⟩
      intro hmem
      rcases List.mem_map.mp hmem with ⟨o', ho', hsym'⟩
      have h2 := (exitOrders_shape rest ps pm o' ho').2
      rw [hsym', (exitOrderFor_spec ps pm s o hfs).1] at h2
      exact hs h2

/-! ### Claim C7: NO_CAPACITY still liquidates exits -/

/-- C7: whenever the gate is passed (forced or a cadence day), the
prepared signals frame is nonempty, and the capacity computation yields a
maximum allowable position count of 0, the result is `NO_CAPACITY` with
empty targets and zero turnover, and its orders are exactly the
`_exit_orders`: one SELL per currently-held exit-signaled symbol with a
known price, sized to the current position quantity. -/
theorem no_capacity_result_liquidates_exits (st : EngineState) (asOf : Timestamp)
    (holdings : HoldingsSnapshot) (signals : List SignalRow)
    (priceData : String → Option ℚ) (force : Bool) (r : RebalanceResult)
    (hrun : engineEvaluate st asOf holdings signals priceData force = Except.ok r)
    (hgate : force = true ∨ isRebalanceDay asOf st.cadence = Except.ok true)
    (hframe : (prepareSignals signals).isEmpty = false)
    (hcap : maxPositionsByMinWeight (max 0 (1 - st.cash_buffer)) st.min_weight
      st.max_positions = 0) :
    r.status = "NO_CAPACITY" ∧ r.targets = [] ∧ r.turnover = 0 ∧
    ∃ pm, loadPriceMap priceData
        (sortedUnion ((prepareSignals signals).map SignalRow.symbol)
          ((positionsDict holdings.positions).map Position.symbol)) = Except.ok pm ∧
      r.orders = exitOrders
        (collectExitSymbols (prepareSignals signals)
          ((positionsDict holdings.positions).map Position.symbol))
        (positionsDict holdings.positions) pm ∧
      (∀ (s : String) (pos : Position) (p : ℚ),
        s ∈ collectExitSymbols (prepareSignals signals)
          ((positionsDict holdings.positions).map Position.symbol) →
        posLookup (positionsDict holdings.positions) s = some pos →
        pos.qty ≠ 0 → priceLookup pm s = some p →
        ({ symbol := s, side := "SELL", quantity := roundTo 6 pos.qty,
           notional := roundTo 2 (|pos.qty| * p) } : RebalanceOrder) ∈ r.orders) ∧
      (∀ o ∈ r.orders, o.side = "SELL") ∧
      ((r.orders.map (fun o => o.symbol)).Nodup) := by
  have hgate' : (if force then (Except.ok true : Except String Bool)
      else isRebalanceDay asOf st.cadence) = Except.ok true := by
    rcases hgate with hf | hc
    · simp [hf]
    · by_cases hf : force
      · simp [hf]
      · simp [hf, hc]
  unfold engineEvaluate at hrun
  simp only [hgate', exceptOkBind, not_true, if_false, hframe, Bool.false_eq_true, hcap,
    if_pos] at hrun
  cases hl : loadPriceMap priceData
      (sortedUnion ((prepareSignals signals).map SignalRow.symbol)
        ((positionsDict holdings.positions).map Position.symbol)) with
  | error e =>
    rw [hl] at hrun
    simp at hrun
  | ok pm =>
    rw [hl] at hrun
    simp only [exceptOkBind, not_true, if_false, hcap, if_pos, Except.ok.injEq] at hrun
    subst hrun
    refine ⟨rfl, rfl, rfl, pm, rfl, rfl, ?_, ?_, ?_⟩
    · intro s pos p hs hpos hq hp
      exact exitOrders_mem _ _ pm s pos p hs hpos hq hp
    · intro o ho
      exact (exitOrders_shape _ _ pm o ho).1
    · exact exitOrders_symbols_nodup _ _ pm (collectExitSymbols_nodup _ _)

/-- Witness for C7: held AAPL (qty 10, price 100) with an EXIT signal
under a configuration whose min-weight and cash buffer leave zero
capacity; the result is NO_CAPACITY with the single liquidation order. -/
theorem no_capacity_result_liquidates_exits_witness :
    ∃ r, engineEvaluate
        { cadence := "monthly", max_positions := 3, equal_weight := true,
          min_weight := 6 / 10, cash_buffer := 1 / 2, turnover_cap := none }
        ⟨4, true⟩ c1holdings c7signals c1price false = Except.ok r ∧
      r.status = "NO_CAPACITY" ∧ r.targets = [] ∧ r.turnover = 0 ∧
      r.orders = [{ symbol := "AAPL", side := "SELL", quantity := 10, notional := 1000 }] := by
  have hrun : engineEvaluate
      { cadence := "monthly", max_positions := 3, equal_weight := true,
        min_weight := 6 / 10, cash_buffer := 1 / 2, turnover_cap := none }
      ⟨4, true⟩ c1holdings c7signals c1price false =
      Except.ok
        { status := "NO_CAPACITY", cash_buffer := 1 / 2, turnover := 0, targets := [],
          orders := [{ symbol := "AAPL", side := "SELL", quantity := 10, notional := 1000 }],
          notes := ["Cash buffer and min_weight configuration leave no capacity for targets"] } := by
    with_unfolding_all rfl
  have h := no_capacity_result_liquidates_exits
    { cadence := "monthly", max_positions := 3, equal_weight := true,
      min_weight := 6 / 10, cash_buffer := 1 / 2, turnover_cap := none }
    ⟨4, true⟩ c1holdings c7signals c1price false _ hrun
    (Or.inr (by with_unfolding_all rfl))
    (by with_unfolding_all rfl)
    (by with_unfolding_all rfl)
  exact ⟨_, hrun, h.1, h.2.1, h.2.2.1, rfl⟩

/-! Facts about `_compute_weights`, `_build_proposal`,
`_enforce_min_weight` and `_reduce_turnover` used for the allocation and
turnover invariants. -/

theorem listSum_map_mul_right (l : List ℚ) (c : ℚ) :
    (l.map (fun x => x * c)).sum = l.sum * c := by
  induction l with
  | nil => simp
  | cons x xs ih => simp [ih]; ring

theorem computeWeights_length (S : List Candidate) (a : ℚ) (ew : Bool) :
    (computeWeights S a ew).length = S.length := by
  unfold computeWeights
  by_cases h : S.isEmpty
  · simp [h, List.isEmpty_iff.mp h]
  · by_cases h2 : ew = true ∨ S.length = 1
    · simp [h, h2]
    · simp only [h, Bool.false_eq_true, if_false, h2]
      by_cases h3 : (S.map (fun c => max c.rank_score 0)).sum ≤ 0
      · simp [h3]
      · simp [h3]

theorem computeWeights_sum (S : List Candidate) (a : ℚ) (ew : Bool)
    (hne : ¬ S.isEmpty) : (computeWeights S a ew).sum = a := by
  have hlen : (S.length : ℚ) ≠ 0 := by
    simpa [List.isEmpty_iff, List.length_eq_zero] using hne
  unfold computeWeights
  by_cases h2 : ew = true ∨ S.length = 1
  · rw [if_neg hne, if_pos h2, sum_map_const_list]
    field_simp
  · rw [if_neg hne, if_neg h2]
    by_cases h3 : (S.map (fun c => max c.rank_score 0)).sum ≤ 0
    · rw [if_pos h3, sum_map_const_list]
      field_simp
    · rw [if_neg h3]
      have ht : (S.map (fun c => max c.rank_score 0)).sum ≠ 0 := by
        intro h0; exact h3 (le_of_eq h0)
      have hfun : (fun s => a * s / (S.map (fun c => max c.rank_score 0)).sum) =
          (fun s => s * (a / (S.map (fun c => max c.rank_score 0)).sum)) := by
        funext s; ring
      rw [hfun, listSum_map_mul_right]
      field_simp

theorem computeWeights_equal_mode (S : List Candidate) (a : ℚ) (w : ℚ)
    (hw : w ∈ computeWeights S a true) : w = a / S.length := by
  unfold computeWeights at hw
  by_cases h : S.isEmpty
  · rw [if_pos h] at hw
    simp at hw
  · simp only [h, Bool.false_eq_true, if_false, true_or, if_true] at hw
    rcases List.mem_map.mp hw with ⟨c, _, hc⟩
    exact hc.symm

theorem buildTargets_sum (S : List Candidate) (ex : List String) (a : ℚ)
    (ew : Bool) :
    ((buildTargets S ex a ew).map RebalanceTarget.target_weight).sum =
      if S.isEmpty then 0 else a := by
  unfold buildTargets
  rw [sortLe_map_sum, List.map_append, List.sum_append]
  have hexit : ((ex.map (fun s =>
      { symbol := s, target_weight := 0, rationale := some "Exit signal triggered"
        : RebalanceTarget })).map RebalanceTarget.target_weight).sum = 0 := by
    rw [List.map_map]
    have hf : (RebalanceTarget.target_weight ∘ (fun s =>
        { symbol := s, target_weight := 0, rationale := some "Exit signal triggered"
          : RebalanceTarget })) = fun _ => (0 : ℚ) := rfl
    rw [hf, sum_map_const_list]
    ring
  rw [hexit, add_zero, List.map_map]
  have hzip : ((S.zip (computeWeights S a ew)).map
      (RebalanceTarget.target_weight ∘ (fun cw =>
        { symbol := cw.1.symbol, target_weight := cw.2
          rationale := some cw.1.rationale : RebalanceTarget }))) =
      (S.zip (computeWeights S a ew)).map Prod.snd := by
    simp [Function.comp]
  rw [hzip, List.map_snd_zip _ _ (by rw [computeWeights_length])]
  by_cases h : S.isEmpty
  · have : computeWeights S a ew = [] := by
      unfold computeWeights; simp [h]
    simp [h, this]
  · rw [if_neg h]
    exact computeWeights_sum S a ew h

theorem buildTargets_equal_mode (S : List Candidate) (ex : List String) (a : ℚ)
    (t : RebalanceTarget) (ht : t ∈ buildTargets S ex a true) :
    t.target_weight = a / S.length ∨ t.target_weight = 0 := by
  unfold buildTargets at ht
  rw [mem_sortLe, List.mem_append] at ht
  rcases ht with h | h
  · rcases List.mem_map.mp h with ⟨cw, hcw, hmk⟩
    left
    rw [← hmk]
    exact computeWeights_equal_mode S a cw.2 (List.of_mem_zip hcw).2
  · rcases List.mem_map.mp h with ⟨s, _, hmk⟩
    right
    rw [← hmk]

theorem buildProposal_inv (S : List Candidate) (ex : List String)
    (pos : List Position) (cash : ℚ) (pm : List (String × ℚ)) (a : ℚ) (ew : Bool)
    (P : Proposal) (h : buildProposal S ex pos cash pm a ew = Except.ok P) :
    P.targets = buildTargets S ex a ew ∧
    (P.status = "REBALANCE" ∨ P.status = "NO_CANDIDATES") := by
  unfold buildProposal at h
  cases hoat : ordersAndTurnover pos cash pm (buildTargets S ex a ew) with
  | error e =>
    simp only [hoat, exceptErrorBind] at h
    exact Except.noConfusion h
  | ok pair =>
    simp only [hoat, exceptOkBind, Except.ok.injEq] at h
    subst h
    constructor
    · rfl
    · by_cases hc : ¬ (buildTargets S ex a ew).isEmpty = true ∨ ¬ pair.1.isEmpty = true
      · left; simp only [hc, if_pos]
      · right
        rw [if_neg hc]

theorem enforceMinWeightRev_min (a mw : ℚ) (l : List Candidate) :
    (enforceMinWeightRev a mw l).1 = [] ∨
      mw ≤ a / ((enforceMinWeightRev a mw l).1.length : ℚ) + eps9 := by
  induction l with
  | nil => left; rfl
  | cons c rest ih =>
    by_cases h : mw ≤ a / ((rest.length : ℚ) + 1) + eps9
    · right
      simp only [enforceMinWeightRev, if_pos h]
      simpa using h
    · simp only [enforceMinWeightRev, if_neg h]
      exact ih

theorem enforceMinWeightRev_length (a mw : ℚ) (l : List Candidate) :
    (enforceMinWeightRev a mw l).1.length ≤ l.length := by
  induction l with
  | nil => simp [enforceMinWeightRev]
  | cons c rest ih =>
    by_cases h : mw ≤ a / ((rest.length : ℚ) + 1) + eps9
    · simp [enforceMinWeightRev, if_pos h]
    · simp only [enforceMinWeightRev, if_neg h]
      exact le_trans ih (Nat.le_succ _)

theorem enforceMinWeight_min (sel : List Candidate) (a mw : ℚ) (hmw : 0 < mw) :
    (enforceMinWeight sel a mw).1 = [] ∨
      mw ≤ a / (((enforceMinWeight sel a mw).1.length : ℚ)) + eps9 := by
  unfold enforceMinWeight
  by_cases h : sel.isEmpty = true ∨ mw ≤ 0
  · rcases h with h | h
    · left; simp [List.isEmpty_iff.mp h, h]
    · exact absurd h (not_le.mpr hmw)
  · rw [if_neg h]
    rcases enforceMinWeightRev_min a mw sel.reverse with h1 | h1
    · left; simp [h1]
    · right; simpa using h1

theorem enforceMinWeight_length (sel : List Candidate) (a mw : ℚ) :
    (enforceMinWeight sel a mw).1.length ≤ sel.length := by
  unfold enforceMinWeight
  by_cases h : sel.isEmpty = true ∨ mw ≤ 0
  · rcases h with h | h
    · simp [List.isEmpty_iff.mp h]
    · simp [h]
  · rw [if_neg h]
    simpa using le_trans (by simpa using enforceMinWeightRev_length a mw sel.reverse)
      (le_of_eq (List.length_reverse sel))

theorem reduceTurnoverLoop_spec (ex : List String) (pos : List Position)
    (cash : ℚ) (pm : List (String × ℚ)) (a : ℚ) (ew : Bool) (cap : ℚ) :
    ∀ (rev kept : List Candidate) (ns : List String) (P : Proposal)
      (ns2 : List String),
    reduceTurnoverLoop ex pos cash pm a ew cap rev kept ns = Except.ok (P, ns2) →
    (∃ S P2, S.length ≤ rev.length + kept.length ∧
       buildProposal S ex pos cash pm a ew = Except.ok P2 ∧
       P.targets = P2.targets ∧ P.turnover = P2.turnover ∧ P.status = P2.status ∧
       P.turnover ≤ cap) ∨
    (P.status = "TURNOVER_LIMIT" ∧ P.targets = [] ∧ P.orders = [] ∧
      P.turnover = 0) := by
  intro rev
  induction rev with
  | nil =>
    intro kept ns P ns2 h
    unfold reduceTurnoverLoop at h
    cases hbp : buildProposal kept ex pos cash pm a ew with
    | error e =>
      simp only [hbp, exceptErrorBind] at h
      exact Except.noConfusion h
    | ok fp =>
      simp only [hbp, exceptOkBind] at h
      by_cases hlt : cap < fp.turnover
      · rw [if_pos hlt] at h
        simp only [Except.ok.injEq, Prod.mk.injEq] at h
        right
        rw [← h.1]
        exact ⟨rfl, rfl, rfl, rfl⟩
      · rw [if_neg hlt] at h
        simp only [Except.ok.injEq, Prod.mk.injEq] at h
        left
        refine ⟨kept, fp, by simp, hbp, ?_, ?_, ?_, ?_⟩ <;> rw [← h.1]
        · exact not_lt.mp hlt
  | cons c rev ih =>
    intro kept ns P ns2 h
    unfold reduceTurnoverLoop at h
    cases hbp : buildProposal (rev.reverse ++ c :: kept) ex pos cash pm a ew with
    | error e =>
      simp only [hbp, exceptErrorBind] at h
      exact Except.noConfusion h
    | ok p =>
      simp only [hbp, exceptOkBind] at h
      by_cases hle : p.turnover ≤ cap
      · rw [if_pos hle] at h
        simp only [Except.ok.injEq, Prod.mk.injEq] at h
        left
        refine ⟨rev.reverse ++ c :: kept, p, ?_, hbp, ?_, ?_, ?_, ?_⟩
        · simp [List.length_append]
          omega
        · rw [← h.1]
        · rw [← h.1]
        · rw [← h.1]
        · rw [← h.1]; exact hle
      · rw [if_neg hle] at h
        by_cases hex : c.is_existing = true
        · rw [if_pos hex] at h
          rcases ih (c :: kept) ns P ns2 h with ⟨S, P2, hlen, rest⟩ | hr
          · left
            exact ⟨S, P2, by simp at hlen ⊢; omega, rest⟩
          · right; exact hr
        · rw [if_neg hex] at h
          rcases ih kept _ P ns2 h with ⟨S, P2, hlen, rest⟩ | hr
          · left
            exact ⟨S, P2, by simp at hlen ⊢; omega, rest⟩
          · right; exact hr

/-- Path inversion for `RebalanceEngine.evaluate`: every successful result
is an early degenerate result (`NO_REBALANCE`/`NO_CANDIDATES` or
`NO_CAPACITY`), a proposal built by `_build_proposal` from at most as many
candidates as the min-weight-enforced selection (with the turnover cap
respected when configured), or the `TURNOVER_LIMIT` discard. -/
theorem engineEvaluate_inv (st : EngineState) (asOf : Timestamp)
    (holdings : HoldingsSnapshot) (signals : List SignalRow)
    (priceData : String → Option ℚ) (force : Bool) (r : RebalanceResult)
    (hrun : engineEvaluate st asOf holdings signals priceData force = Except.ok r) :
    (r.targets = [] ∧ r.orders = [] ∧ r.turnover = 0 ∧
      (r.status = "NO_REBALANCE" ∨ r.status = "NO_CANDIDATES")) ∨
    (r.status = "NO_CAPACITY" ∧ r.targets = [] ∧ r.turnover = 0) ∨
    (∃ pm S P,
      S.length ≤ ((enforceMinWeight
        ((collectCandidates (prepareSignals signals)
            ((positionsDict holdings.positions).map Position.symbol) pm
            st.equal_weight).take
          (maxPositionsByMinWeight (max 0 (1 - st.cash_buffer)) st.min_weight
            st.max_positions).toNat)
        (max 0 (1 - st.cash_buffer)) st.min_weight).1).length ∧
      buildProposal S
        (collectExitSymbols (prepareSignals signals)
          ((positionsDict holdings.positions).map Position.symbol))
        (positionsDict holdings.positions) (holdings.cash.getD 0) pm
        (max 0 (1 - st.cash_buffer)) st.equal_weight = Except.ok P ∧
      r.status = P.status ∧ r.targets = P.targets ∧ r.turnover = P.turnover ∧
      (∀ cap, st.turnover_cap = some cap → r.turnover ≤ cap)) ∨
    (r.status = "TURNOVER_LIMIT" ∧ r.targets = [] ∧ r.orders = [] ∧
      r.turnover = 0) := by
  unfold engineEvaluate at hrun
  cases hg : (if force then (Except.ok true : Except String Bool)
      else isRebalanceDay asOf st.cadence) with
  | error e =>
    simp only [hg] at hrun
    exact Except.noConfusion hrun
  | ok gate =>
    simp only [hg] at hrun
    cases gate with
    | false =>
      rw [if_pos (by simp)] at hrun
      simp only [Except.ok.injEq] at hrun
      subst hrun
      left
      exact ⟨rfl, rfl, rfl, Or.inl rfl⟩
    | true =>
      simp only [not_true, if_false] at hrun
      by_cases hframe : (prepareSignals signals).isEmpty
      · rw [if_pos hframe] at hrun
        simp only [Except.ok.injEq] at hrun
        subst hrun
        left
        exact ⟨rfl, rfl, rfl, Or.inr rfl⟩
      · rw [if_neg hframe] at hrun
        cases hl : loadPriceMap priceData
            (sortedUnion ((prepareSignals signals).map SignalRow.symbol)
              ((positionsDict holdings.positions).map Position.symbol)) with
        | error e =>
          simp only [hl, exceptErrorBind] at hrun
          exact Except.noConfusion hrun
        | ok pm =>
          simp only [hl, exceptOkBind] at hrun
          by_cases hcap : maxPositionsByMinWeight (max 0 (1 - st.cash_buffer))
              st.min_weight st.max_positions = 0
          · rw [if_pos hcap] at hrun
            simp only [Except.ok.injEq] at hrun
            subst hrun
            right; left
            exact ⟨rfl, rfl, rfl⟩
          · rw [if_neg hcap] at hrun
            set posd := positionsDict holdings.positions with hposd
            set exS := collectExitSymbols (prepareSignals signals)
              (posd.map Position.symbol) with hexS
            set E := (enforceMinWeight
              ((collectCandidates (prepareSignals signals)
                  (posd.map Position.symbol) pm st.equal_weight).take
                (maxPositionsByMinWeight (max 0 (1 - st.cash_buffer)) st.min_weight
                  st.max_positions).toNat)
              (max 0 (1 - st.cash_buffer)) st.min_weight).1 with hEdef
            cases hbp : buildProposal E exS posd (holdings.cash.getD 0) pm
                (max 0 (1 - st.cash_buffer)) st.equal_weight with
            | error e =>
              simp only [hbp, exceptErrorBind] at hrun
              exact Except.noConfusion hrun
            | ok proposal =>
              simp only [hbp, exceptOkBind] at hrun
              cases hco : st.turnover_cap with
              | none =>
                simp only [hco, exceptOkBind, exceptPure, Except.ok.injEq] at hrun
                subst hrun
                right; right; left
                refine ⟨pm, E, proposal, le_refl _, hbp, rfl, rfl, rfl, ?_⟩
                intro cap hcap2
                exact Option.noConfusion hcap2
              | some cap =>
                simp only [hco] at hrun
                by_cases hlt : cap < proposal.turnover
                · rw [if_pos hlt] at hrun
                  cases hrt : reduceTurnover E exS posd (holdings.cash.getD 0) pm
                      (max 0 (1 - st.cash_buffer)) st.equal_weight cap with
                  | error e =>
                    simp only [hrt, exceptErrorBind] at hrun
                    exact Except.noConfusion hrun
                  | ok pr =>
                    simp only [hrt, exceptOkBind, Except.ok.injEq] at hrun
                    subst hrun
                    unfold reduceTurnover at hrt
                    rcases reduceTurnoverLoop_spec exS posd (holdings.cash.getD 0)
                        pm (max 0 (1 - st.cash_buffer)) st.equal_weight cap
                        E.reverse [] [] pr.1 pr.2 (by rw [hrt]) with
                      ⟨S, P2, hlen, hbp2, htg, htv, hst, hcaple⟩ | hTL
                    · right; right; left
                      refine ⟨pm, S, P2, ?_, hbp2, hst, htg, htv, ?_⟩
                      · simpa using hlen
                      · intro cap2 hcap2
                        have hc2 : cap = cap2 := Option.some.inj hcap2
                        subst hc2
                        exact htv ▸ hcaple
                    · right; right; right
                      exact hTL
                · rw [if_neg hlt] at hrun
                  simp only [exceptPure, exceptOkBind, Except.ok.injEq] at hrun
                  subst hrun
                  right; right; left
                  refine ⟨pm, E, proposal, le_refl _, hbp, rfl, rfl, rfl, ?_⟩
                  intro cap2 hcap2
                  have hc2 : cap = cap2 := Option.some.inj hcap2
                  subst hc2
                  exact not_lt.mp hlt


/-! ### Claim C10: positive total portfolio value is an unstated
precondition of order derivation -/

/-- C10: when a call passes the cadence gate, has a nonempty prepared
frame with at least one candidate, has positive capacity, and the loaded
prices value the holdings at `cash + Σ qty×price ≤ 0`, `evaluate` raises
`Total portfolio value must be positive` instead of returning a result. -/
theorem nonpositive_portfolio_value_raises (st : EngineState) (asOf : Timestamp)
    (holdings : HoldingsSnapshot) (signals : List SignalRow)
    (priceData : String → Option ℚ) (force : Bool) (pm : List (String × ℚ))
    (cvals : List (String × ℚ))
    (hgate : force = true ∨ isRebalanceDay asOf st.cadence = Except.ok true)
    (hframe : (prepareSignals signals).isEmpty = false)
    (hpm : loadPriceMap priceData
      (sortedUnion ((prepareSignals signals).map SignalRow.symbol)
        ((positionsDict holdings.positions).map Position.symbol)) = Except.ok pm)
    (hcap : ¬ maxPositionsByMinWeight (max 0 (1 - st.cash_buffer)) st.min_weight
      st.max_positions = 0)
    (hcand : collectCandidates (prepareSignals signals)
      ((positionsDict holdings.positions).map Position.symbol) pm
      st.equal_weight ≠ [])
    (hcv : currentValues (positionsDict holdings.positions) pm = Except.ok cvals)
    (htot : holdings.cash.getD 0 + (cvals.map (fun e => e.2)).sum ≤ 0) :
    engineEvaluate st asOf holdings signals priceData force =
      Except.error "Total portfolio value must be positive" := by
  have hgate' : (if force then (Except.ok true : Except String Bool)
      else isRebalanceDay asOf st.cadence) = Except.ok true := by
    rcases hgate with hf | hc
    · simp [hf]
    · by_cases hf : force
      · simp [hf]
      · simp [hf, hc]
  unfold engineEvaluate
  simp only [hgate', hframe, Bool.false_eq_true, not_true, if_false, hpm,
    exceptOkBind, if_neg hcap]
  have hbuild : ∀ (selected : List Candidate) (ex : List String),
      buildProposal selected ex (positionsDict holdings.positions)
        (holdings.cash.getD 0) pm (max 0 (1 - st.cash_buffer)) st.equal_weight =
      Except.error "Total portfolio value must be positive" := by
    intro selected ex
    unfold buildProposal ordersAndTurnover
    simp only [hcv, exceptOkBind, if_pos htot, exceptErrorBind]
  simp only [hbuild, exceptErrorBind]

/-- Witness for C10: holdings `{AAPL: 10, cash -2000}` at price 100 give
total value `-1000 ≤ 0`; evaluate raises. -/
theorem nonpositive_portfolio_value_raises_witness :
    engineEvaluate
      { cadence := "monthly", max_positions := 3, equal_weight := true,
        min_weight := 0, cash_buffer := 0, turnover_cap := none }
      ⟨4, true⟩ c10holdings c1signals c1price false =
      Except.error "Total portfolio value must be positive" := by
  refine nonpositive_portfolio_value_raises _ ⟨4, true⟩ c10holdings c1signals c1price
    false [("AAPL", 100)] [("AAPL", 1000)]
    (Or.inr (by with_unfolding_all rfl))
    (by with_unfolding_all rfl)
    (by with_unfolding_all rfl)
    (by with_unfolding_all decide)
    ?_
    (by with_unfolding_all rfl)
    (by norm_num [c10holdings])
  have hc : collectCandidates (prepareSignals c1signals)
      ((positionsDict c10holdings.positions).map Position.symbol) [("AAPL", 100)]
      true =
      [{ symbol := "AAPL", signal := "HOLD", rank_score := 1, price := 100,
         rationale := "Maintain position", is_existing := true }] := by
    with_unfolding_all rfl
  rw [hc]
  simp

/-! ### Claim C5: turnover-cap invariant -/

/-- C5: with a (nonnegative) turnover cap configured, every successful
result that is not `TURNOVER_LIMIT` has turnover at most the cap, and a
`TURNOVER_LIMIT` result has empty targets and orders (the proposal is
discarded whole rather than partially violating the cap). -/
theorem turnover_cap_respected (st : EngineState) (asOf : Timestamp)
    (holdings : HoldingsSnapshot) (signals : List SignalRow)
    (priceData : String → Option ℚ) (force : Bool) (r : RebalanceResult) (cap : ℚ)
    (hco : st.turnover_cap = some cap) (hc0 : 0 ≤ cap)
    (hrun : engineEvaluate st asOf holdings signals priceData force = Except.ok r) :
    (r.status ≠ "TURNOVER_LIMIT" → r.turnover ≤ cap) ∧
    (r.status = "TURNOVER_LIMIT" → r.targets = [] ∧ r.orders = []) := by
  rcases engineEvaluate_inv st asOf holdings signals priceData force r hrun with
    ⟨ht, ho, htv, hs⟩ | ⟨hs, ht, htv⟩ |
    ⟨pm, S, P, hlen, hbp, hst, htg, htv, hcapf⟩ | ⟨hs, ht, ho, htv⟩
  · constructor
    · intro _; rw [htv]; exact hc0
    · intro hTL
      rcases hs with h | h <;> rw [h] at hTL <;> exact absurd hTL (by decide)
  · constructor
    · intro _; rw [htv]; exact hc0
    · intro hTL; rw [hs] at hTL; exact absurd hTL (by decide)
  · constructor
    · intro _; exact hcapf cap hco
    · intro hTL
      rcases (buildProposal_inv _ _ _ _ _ _ _ _ hbp).2 with h | h <;>
        rw [hst, h] at hTL <;> exact absurd hTL (by decide)
  · exact ⟨fun _ => by rw [htv]; exact hc0, fun _ => ⟨ht, ho⟩⟩

/-- Witness for C5 at the concrete cap-1 configuration: the result is
`REBALANCE` with turnover `1/5 ≤ 1`, and the `TURNOVER_LIMIT` clause is
vacuous. -/
theorem turnover_cap_respected_witness :
    (("REBALANCE" : String) ≠ "TURNOVER_LIMIT" → (1 / 5 : ℚ) ≤ 1) ∧
    (("REBALANCE" : String) = "TURNOVER_LIMIT" →
      ([ { symbol := "AAPL", target_weight := 1 / 10,
           rationale := some "Maintain position" } ] : List RebalanceTarget) = [] ∧
      ([ { symbol := "AAPL", side := "SELL", quantity := -8, notional := 800 } ] :
        List RebalanceOrder) = []) := by
  have hrun : engineEvaluate
      { cadence := "monthly", max_positions := 3, equal_weight := true,
        min_weight := 0, cash_buffer := 9 / 10, turnover_cap := some 1 }
      ⟨4, true⟩ c1holdings c1signals c1price false =
      Except.ok
        { status := "REBALANCE", cash_buffer := 9 / 10, turnover := 1 / 5,
          targets := [{ symbol := "AAPL", target_weight := 1 / 10,
                        rationale := some "Maintain position" }],
          orders := [{ symbol := "AAPL", side := "SELL", quantity := -8,
                       notional := 800 }],
          notes := ["Selected symbols for allocation"] } := by
    with_unfolding_all rfl
  exact turnover_cap_respected _ ⟨4, true⟩ c1holdings c1signals c1price false _ 1
    rfl (by norm_num) hrun

/-! ### Claim C4: allocation bounds -/

/-- C4 counterexample: under score-weighted allocation (scores 10, 1, 1,
`min_weight = 0.3`, `cash_buffer = 0.1`) the accepted proposal gives MSFT
a nonzero target weight of `3/40 = 0.075`, strictly below
`min_weight − ε`: `_enforce_min_weight` only checks the equal split, so
the per-target floor fails in score-weighted mode. -/
theorem score_weight_breaks_min_weight_floor :
    ∃ r, ((engineInit c4cfg).bind fun st =>
        engineEvaluate st ⟨4, true⟩ { positions := [], cash := some 1000 }
          c4signals c4price false) = Except.ok r ∧
      r.status ≠ "NO_CAPACITY" ∧
      ∃ t ∈ r.targets, t.target_weight ≠ 0 ∧
        t.target_weight < (3 : ℚ) / 10 - eps9 := by
  refine ⟨{ status := "REBALANCE", cash_buffer := 1 / 10, turnover := 9 / 20,
            targets := [{ symbol := "AAPL", target_weight := 3 / 4,
                          rationale := some "BUY signal" },
                        { symbol := "MSFT", target_weight := 3 / 40,
                          rationale := some "BUY signal" },
                        { symbol := "NVDA", target_weight := 3 / 40,
                          rationale := some "BUY signal" }],
            orders := [{ symbol := "AAPL", side := "BUY", quantity := 75,
                         notional := 750 },
                       { symbol := "MSFT", side := "BUY", quantity := 15 / 2,
                         notional := 75 },
                       { symbol := "NVDA", side := "BUY", quantity := 15 / 2,
                         notional := 75 }],
            notes := ["Selected symbols for allocation"] },
         ?_, by decide, ?_⟩
  · with_unfolding_all rfl
  · refine ⟨{ symbol := "MSFT", target_weight := 3 / 40,
              rationale := some "BUY signal" },
      List.mem_cons_of_mem _ (List.mem_cons_self _ _), by norm_num, ?_⟩
    show (3 : ℚ) / 40 < 3 / 10 - eps9
    norm_num [eps9]

/-- C4 amended: for every successful evaluation with `cash_buffer ≤ 1`
and a status other than `NO_CAPACITY`, the target weights sum to at most
`1 − cash_buffer`; and in equal-weight mode every nonzero target weight is
at least `min_weight − 1e-9`.  (In score-weighted mode only the equal
split is checked against the floor, so the per-target bound can fail —
see the counterexample.) -/
theorem allocation_bounds (st : EngineState) (asOf : Timestamp)
    (holdings : HoldingsSnapshot) (signals : List SignalRow)
    (priceData : String → Option ℚ) (force : Bool) (r : RebalanceResult)
    (hrun : engineEvaluate st asOf holdings signals priceData force = Except.ok r)
    (hcb : st.cash_buffer ≤ 1) (hstatus : r.status ≠ "NO_CAPACITY") :
    ((r.targets.map RebalanceTarget.target_weight).sum ≤ 1 - st.cash_buffer) ∧
    (st.equal_weight = true → ∀ t ∈ r.targets, t.target_weight ≠ 0 →
      st.min_weight - eps9 ≤ t.target_weight) := by
  have ha0 : (0 : ℚ) ≤ 1 - st.cash_buffer := by linarith
  have hmax : max 0 (1 - st.cash_buffer) = 1 - st.cash_buffer := max_eq_right ha0
  have hann : (0 : ℚ) ≤ max 0 (1 - st.cash_buffer) := le_max_left 0 _
  have heps : (0 : ℚ) < eps9 := by norm_num [eps9]
  rcases engineEvaluate_inv st asOf holdings signals priceData force r hrun with
    ⟨ht, _, _, _⟩ | ⟨hs, _, _⟩ |
    ⟨pm, S, P, hlen, hbp, hst, htg, htv, _⟩ | ⟨_, ht, _, _⟩
  · constructor
    · rw [ht]; simpa using ha0
    · intro _ t htmem; rw [ht] at htmem; simp at htmem
  · exact absurd hs hstatus
  · have htargets := (buildProposal_inv _ _ _ _ _ _ _ _ hbp).1
    have htg2 : r.targets = buildTargets S
        (collectExitSymbols (prepareSignals signals)
          ((positionsDict holdings.positions).map Position.symbol))
        (max 0 (1 - st.cash_buffer)) st.equal_weight := htg.trans htargets
    constructor
    · rw [htg2, buildTargets_sum]
      by_cases hS : S.isEmpty
      · rw [if_pos hS]; linarith
      · rw [if_neg hS, hmax]
    · intro hew t htmem hne
      rw [htg2, hew] at htmem
      rcases buildTargets_equal_mode S _ _ t htmem with hw | hw
      · by_cases hmw : 0 < st.min_weight
        · rcases enforceMinWeight_min
            ((collectCandidates (prepareSignals signals)
                ((positionsDict holdings.positions).map Position.symbol) pm
                st.equal_weight).take
              (maxPositionsByMinWeight (max 0 (1 - st.cash_buffer)) st.min_weight
                st.max_positions).toNat)
            (max 0 (1 - st.cash_buffer)) st.min_weight hmw with hE | hE
          · rw [hE] at hlen
            have hS0 : S.length = 0 := by simpa using hlen
            rw [hw, hS0] at hne
            simp at hne
          · have hSne : S.length ≠ 0 := by
              intro h0
              apply hne
              rw [hw, h0]
              simp
            have hSpos : (0 : ℚ) < (S.length : ℚ) := by
              exact_mod_cast Nat.pos_of_ne_zero hSne
            have hElen : ((S.length : ℚ)) ≤ (((enforceMinWeight
                ((collectCandidates (prepareSignals signals)
                    ((positionsDict holdings.positions).map Position.symbol) pm
                    st.equal_weight).take
                  (maxPositionsByMinWeight (max 0 (1 - st.cash_buffer))
                    st.min_weight st.max_positions).toNat)
                (max 0 (1 - st.cash_buffer)) st.min_weight).1.length : ℚ)) := by
              exact_mod_cast hlen
            have hinv : (((enforceMinWeight
                ((collectCandidates (prepareSignals signals)
                    ((positionsDict holdings.positions).map Position.symbol) pm
                    st.equal_weight).take
                  (maxPositionsByMinWeight (max 0 (1 - st.cash_buffer))
                    st.min_weight st.max_positions).toNat)
                (max 0 (1 - st.cash_buffer)) st.min_weight).1.length : ℚ))⁻¹ ≤
                ((S.length : ℚ))⁻¹ := by
              apply inv_anti₀ hSpos hElen
            have hdiv : (max 0 (1 - st.cash_buffer)) / (((enforceMinWeight
                ((collectCandidates (prepareSignals signals)
                    ((positionsDict holdings.positions).map Position.symbol) pm
                    st.equal_weight).take
                  (maxPositionsByMinWeight (max 0 (1 - st.cash_buffer))
                    st.min_weight st.max_positions).toNat)
                (max 0 (1 - st.cash_buffer)) st.min_weight).1.length : ℚ)) ≤
                (max 0 (1 - st.cash_buffer)) / ((S.length : ℚ)) := by
              rw [div_eq_mul_inv, div_eq_mul_inv]
              exact mul_le_mul_of_nonneg_left hinv hann
            rw [hw]
            linarith
        · push_neg at hmw
          have hdn : (0 : ℚ) ≤ max 0 (1 - st.cash_buffer) / (S.length : ℚ) :=
            div_nonneg hann (Nat.cast_nonneg _)
          rw [hw]
          linarith
      · exact absurd hw hne
  · constructor
    · rw [ht]; simpa using ha0
    · intro _ t htmem; rw [ht] at htmem; simp at htmem

/-- Witness for the C4 amended theorem at the concrete c1 scenario
(equal-weight, `cash_buffer = 0.9`, `min_weight = 0`): the single target
weight `1/10` sums below `1 − 0.9` and meets the (trivial) floor. -/
theorem allocation_bounds_witness :
    ((([{ symbol := "AAPL", target_weight := 1 / 10,
          rationale := some "Maintain position" }] :
        List RebalanceTarget).map RebalanceTarget.target_weight).sum ≤
      1 - (9 : ℚ) / 10) ∧
    (true = true →
      ∀ t ∈ ([{ symbol := "AAPL", target_weight := 1 / 10,
                rationale := some "Maintain position" }] : List RebalanceTarget),
        t.target_weight ≠ 0 → (0 : ℚ) - eps9 ≤ t.target_weight) := by
  have hrun : engineEvaluate
      { cadence := "monthly", max_positions := 3, equal_weight := true,
        min_weight := 0, cash_buffer := 9 / 10, turnover_cap := none }
      ⟨4, true⟩ c1holdings c1signals c1price false =
      Except.ok
        { status := "REBALANCE", cash_buffer := 9 / 10, turnover := 1 / 5,
          targets := [{ symbol := "AAPL", target_weight := 1 / 10,
                        rationale := some "Maintain position" }],
          orders := [{ symbol := "AAPL", side := "SELL", quantity := -8,
                       notional := 800 }],
          notes := ["Selected symbols for allocation"] } := by
    with_unfolding_all rfl
  exact allocation_bounds _ ⟨4, true⟩ c1holdings c1signals c1price false _ hrun
    (by norm_num) (by decide)

/-! ### Expression-evaluator lemmas -/

theorem zipCells_length (f : Cell → Cell → Except String Cell) :
    ∀ (l1 l2 out : List Cell), zipCells f l1 l2 = Except.ok out →
      out.length = min l1.length l2.length := by
  intro l1
  induction l1 with
  | nil =>
    intro l2 out h
    simp only [zipCells] at h
    cases l2 <;> simp_all
  | cons a as ih =>
    intro l2 out h
    cases l2 with
    | nil => simp only [zipCells] at h; simp_all
    | cons b bs =>
      simp only [zipCells] at h
      cases hc : f a b with
      | error e => simp [hc] at h
      | ok c =>
        simp only [hc, exceptOkBind] at h
        cases hrest : zipCells f as bs with
        | error e => simp [hrest] at h
        | ok rest =>
          simp only [hrest, exceptOkBind, Except.ok.injEq] at h
          subst h
          simp [ih bs rest hrest]
          omega

theorem mapCells_length (f : Cell → Except String Cell) :
    ∀ (l out : List Cell), mapCells f l = Except.ok out → out.length = l.length := by
  intro l
  induction l with
  | nil => intro out h; simp only [mapCells, Except.ok.injEq] at h; simp [← h]
  | cons a as ih =>
    intro out h
    simp only [mapCells] at h
    cases hc : f a with
    | error e => simp [hc] at h
    | ok c =>
      simp only [hc, exceptOkBind] at h
      cases hrest : mapCells f as with
      | error e => simp [hrest] at h
      | ok rest =>
        simp only [hrest, exceptOkBind, Except.ok.injEq] at h
        subst h
        simp [ih rest hrest]

theorem lookupCtx_length (ctx : List (String × List Cell)) (n : Nat)
    (hctx : ∀ p ∈ ctx, p.2.length = n) (id : String) (col : List Cell)
    (h : lookupCtx ctx id = some col) : col.length = n := by
  unfold lookupCtx at h
  cases hf : ctx.find? (fun p => p.1 = id) with
  | none => rw [hf] at h; simp at h
  | some p =>
    rw [hf] at h
    have h2 : p.2 = col := by simpa using h
    subst h2
    exact hctx p (List.mem_of_find?_eq_some hf)

mutual
theorem evalNode_series_length (ctx : List (String × List Cell)) (n : Nat)
    (hctx : ∀ p ∈ ctx, p.2.length = n) :
    ∀ (e : Expr) (r : EvalRes), evalNode ctx n e = Except.ok r →
      (ensureSeries n r).length = n
  | .boolOp isAnd first rest, r, h => by
    unfold evalNode at h
    cases hfv : evalNode ctx n first with
    | error e2 => simp [hfv] at h
    | ok fv =>
      simp only [hfv, exceptOkBind] at h
      cases hout : evalBoolRest ctx n isAnd (ensureSeries n fv) rest with
      | error e2 => simp [hout] at h
      | ok out =>
        simp only [hout, exceptOkBind, Except.ok.injEq] at h
        subst h
        exact evalBoolRest_length ctx n hctx rest isAnd (ensureSeries n fv) out
          (evalNode_series_length ctx n hctx first fv hfv) hout
  | .binOp op lhs rhs, r, h => by
    unfold evalNode at h
    cases hlv : evalNode ctx n lhs with
    | error e2 => simp [hlv] at h
    | ok lv =>
      simp only [hlv, exceptOkBind] at h
      cases hrv : evalNode ctx n rhs with
      | error e2 => simp [hrv] at h
      | ok rv =>
        simp only [hrv, exceptOkBind] at h
        cases hout : zipCells (cellArith op) (ensureSeries n lv) (ensureSeries n rv) with
        | error e2 => simp [hout] at h
        | ok out =>
          simp only [hout, exceptOkBind, Except.ok.injEq] at h
          subst h
          show out.length = n
          rw [zipCells_length (cellArith op) _ _ out hout,
            evalNode_series_length ctx n hctx lhs lv hlv,
            evalNode_series_length ctx n hctx rhs rv hrv]
          simp
  | .unaryOp op operand, r, h => by
    unfold evalNode at h
    cases hv : evalNode ctx n operand with
    | error e2 => simp [hv] at h
    | ok v =>
      simp only [hv, exceptOkBind] at h
      have hlen := evalNode_series_length ctx n hctx operand v hv
      cases op with
      | uadd =>
        simp only [Except.ok.injEq] at h
        subst h
        exact hlen
      | usub =>
        cases hout : mapCells cellNeg (ensureSeries n v) with
        | error e2 => simp [hout] at h
        | ok out =>
          simp only [hout, exceptOkBind, Except.ok.injEq] at h
          subst h
          show out.length = n
          rw [mapCells_length cellNeg _ out hout, hlen]
      | unot =>
        simp only [Except.ok.injEq] at h
        subst h
        show (List.map _ (ensureSeries n v)).length = n
        rw [List.length_map, hlen]
  | .compare lhs rest, r, h => by
    unfold evalNode at h
    cases hlv : evalNode ctx n lhs with
    | error e2 => simp [hlv] at h
    | ok lv =>
      simp only [hlv, exceptOkBind] at h
      cases hout : evalCmpRest ctx n (ensureSeries n lv)
          (List.replicate n (Cell.bool true)) rest with
      | error e2 => simp [hout] at h
      | ok out =>
        simp only [hout, exceptOkBind, Except.ok.injEq] at h
        subst h
        exact evalCmpRest_length ctx n hctx rest (ensureSeries n lv)
          (List.replicate n (Cell.bool true)) out
          (evalNode_series_length ctx n hctx lhs lv hlv)
          (List.length_replicate n _) hout
  | .name id, r, h => by
    unfold evalNode at h
    cases hcol : lookupCtx ctx id with
    | none => rw [hcol] at h; exact Except.noConfusion h
    | some col =>
      rw [hcol] at h
      simp only [Except.ok.injEq] at h
      subst h
      exact lookupCtx_length ctx n hctx id col hcol
  | .const c, r, h => by
    unfold evalNode at h
    simp only [Except.ok.injEq] at h
    subst h
    exact List.length_replicate n c

theorem evalBoolRest_length (ctx : List (String × List Cell)) (n : Nat)
    (hctx : ∀ p ∈ ctx, p.2.length = n) :
    ∀ (L : ExprList) (isAnd : Bool) (acc out : List Cell), acc.length = n →
      evalBoolRest ctx n isAnd acc L = Except.ok out → out.length = n
  | .nil, isAnd, acc, out, hacc, h => by
    simp only [evalBoolRest, Except.ok.injEq] at h
    subst h
    exact hacc
  | .cons e rest, isAnd, acc, out, hacc, h => by
    unfold evalBoolRest at h
    cases hv : evalNode ctx n e with
    | error e2 => simp [hv] at h
    | ok v =>
      simp only [hv, exceptOkBind] at h
      cases hacc2 : zipCells (if isAnd then cellAnd else cellOr) acc
          (ensureSeries n v) with
      | error e2 => simp [hacc2] at h
      | ok acc2 =>
        simp only [hacc2, exceptOkBind] at h
        refine evalBoolRest_length ctx n hctx rest isAnd acc2 out ?_ h
        rw [zipCells_length _ _ _ acc2 hacc2, hacc,
          evalNode_series_length ctx n hctx e v hv]
        simp

theorem evalCmpRest_length (ctx : List (String × List Cell)) (n : Nat)
    (hctx : ∀ p ∈ ctx, p.2.length = n) :
    ∀ (L : CmpList) (left acc out : List Cell), left.length = n → acc.length = n →
      evalCmpRest ctx n left acc L = Except.ok out → out.length = n
  | .nil, left, acc, out, hleft, hacc, h => by
    simp only [evalCmpRest, Except.ok.injEq] at h
    subst h
    exact hacc
  | .cons op e rest, left, acc, out, hleft, hacc, h => by
    unfold evalCmpRest at h
    cases hv : evalNode ctx n e with
    | error e2 => simp [hv] at h
    | ok v =>
      simp only [hv, exceptOkBind] at h
      cases hcmp : zipCells (cellCmp op) left (ensureSeries n v) with
      | error e2 => simp [hcmp] at h
      | ok comparison =>
        simp only [hcmp, exceptOkBind] at h
        cases hacc2 : zipCells cellAnd acc comparison with
        | error e2 => simp [hacc2] at h
        | ok acc2 =>
          simp only [hacc2, exceptOkBind] at h
          have hvlen := evalNode_series_length ctx n hctx e v hv
          have hcmplen : comparison.length = n := by
            rw [zipCells_length _ _ _ comparison hcmp, hleft, hvlen]
            simp
          refine evalCmpRest_length ctx n hctx rest (ensureSeries n v) acc2 out
            hvlen ?_ h
          rw [zipCells_length _ _ _ acc2 hacc2, hacc, hcmplen]
          simp
end

/-! ### Claim C2: evaluator output shape -/

/-- C2 counterexample: evaluating the arithmetic expression `close + 1`
on a one-row frame with `close = 2` yields the boolean series `[True]`
(`astype(bool)` of `3.0`), not the numeric series `[3.0]` the claim
asserts. -/
theorem arithmetic_rule_result_is_coerced_boolean :
    ruleEvaluate c2expr c2frame = Except.ok [Cell.bool true] ∧
    ruleEvaluate c2expr c2frame ≠ Except.ok [Cell.num 3] := by
  have h1 : ruleEvaluate c2expr c2frame = Except.ok [Cell.bool true] := by
    with_unfolding_all rfl
  refine ⟨h1, ?_⟩
  rw [h1]
  simp

/-- C2 amended: for every rule expression and well-formed frame, a
successful `evaluate` returns the empty series on an empty frame, a
series of length `len(frame)` on a nonempty frame, and every entry is a
boolean — arithmetic results included, because of the final
`.astype(bool)` coercion. -/
theorem evaluate_returns_aligned_boolean_series (e : Expr) (f : Frame)
    (hwf : wfFrame f) (s : List Cell) (h : ruleEvaluate e f = Except.ok s) :
    (frameEmpty f = true → s = []) ∧
    (frameEmpty f = false → s.length = f.nrows) ∧
    (∀ c ∈ s, ∃ b, c = Cell.bool b) := by
  unfold ruleEvaluate at h
  by_cases hemp : frameEmpty f
  · rw [if_pos hemp] at h
    simp only [Except.ok.injEq] at h
    subst h
    exact ⟨fun _ => rfl, fun hc => absurd hemp (by simp [hc]), by simp⟩
  · rw [if_neg hemp] at h
    cases hr : evalNode f.cols f.nrows e with
    | error e2 => simp [hr] at h
    | ok r =>
      simp only [hr, exceptOkBind, Except.ok.injEq] at h
      subst h
      refine ⟨fun hc => absurd hc (by simpa using hemp), fun _ => ?_, ?_⟩
      · rw [List.length_map]
        exact evalNode_series_length f.cols f.nrows hwf e r hr
      · intro c hc
        rcases List.mem_map.mp hc with ⟨c0, _, hc0⟩
        exact ⟨cellTruthy c0, hc0.symm⟩

/-- Witness for the C2 amended theorem at `close + 1` over the one-row
frame: the output is the length-1 all-boolean series `[True]`. -/
theorem evaluate_returns_aligned_boolean_series_witness :
    (frameEmpty c2frame = true → ([Cell.bool true] : List Cell) = []) ∧
    (frameEmpty c2frame = false → ([Cell.bool true] : List Cell).length = c2frame.nrows) ∧
    (∀ c ∈ ([Cell.bool true] : List Cell), ∃ b, c = Cell.bool b) := by
  refine evaluate_returns_aligned_boolean_series c2expr c2frame ?_ [Cell.bool true]
    (by with_unfolding_all rfl)
  intro p hp
  simp only [c2frame, List.mem_singleton] at hp
  subst hp
  rfl

/-! ### Claim C8: chained comparisons -/

theorem cellCmp_bool (op : CmpOp) (a b cc : Cell)
    (h : cellCmp op a b = Except.ok cc) : ∃ bb, cc = Cell.bool bb := by
  cases a <;> cases b <;> cases op <;>
    simp only [cellCmp, cellNum] at h <;>
    first
      | exact Except.noConfusion h
      | exact ⟨_, (Except.ok.inj h).symm⟩

theorem zipCells_cmp_all_bool (op : CmpOp) :
    ∀ (l1 l2 out : List Cell), zipCells (cellCmp op) l1 l2 = Except.ok out →
      ∀ c ∈ out, ∃ bb, c = Cell.bool bb := by
  intro l1
  induction l1 with
  | nil =>
    intro l2 out h
    simp only [zipCells] at h
    cases l2 <;> simp_all
  | cons a as ih =>
    intro l2 out h
    cases l2 with
    | nil => simp only [zipCells] at h; simp_all
    | cons b bs =>
      simp only [zipCells] at h
      cases hc : cellCmp op a b with
      | error e => simp [hc] at h
      | ok c =>
        simp only [hc, exceptOkBind] at h
        cases hrest : zipCells (cellCmp op) as bs with
        | error e => simp [hrest] at h
        | ok rest =>
          simp only [hrest, exceptOkBind, Except.ok.injEq] at h
          subst h
          intro x hx
          rcases List.mem_cons.mp hx with rfl | hx'
          · exact cellCmp_bool op a b x hc
          · exact ih bs rest hrest x hx'

theorem zipCells_and_replicate_true :
    ∀ (l : List Cell) (n : Nat), (∀ c ∈ l, ∃ bb, c = Cell.bool bb) →
      zipCells cellAnd (List.replicate n (Cell.bool true)) l =
        Except.ok (l.take n) := by
  intro l
  induction l with
  | nil =>
    intro n _
    cases n <;> simp [zipCells, List.replicate]
  | cons c cs ih =>
    intro n hbool
    cases n with
    | zero => simp [zipCells, List.replicate]
    | succ m =>
      rcases hbool c (List.mem_cons_self _ _) with ⟨bb, rfl⟩
      simp only [List.replicate, zipCells, cellAnd, Bool.true_and, exceptOkBind]
      rw [ih m (fun x hx => hbool x (List.mem_cons_of_mem _ hx))]
      rfl

theorem zipCells_and_take_right :
    ∀ (l1 l2 : List Cell) (n : Nat), l1.length ≤ n →
      zipCells cellAnd l1 (l2.take n) = zipCells cellAnd l1 l2 := by
  intro l1
  induction l1 with
  | nil =>
    intro l2 n _
    rfl
  | cons a as ih =>
    intro l2 n hlen
    cases l2 with
    | nil => simp
    | cons b bs =>
      cases n with
      | zero => simp at hlen
      | succ m =>
        simp only [List.take, zipCells]
        rw [ih bs m (by simpa using hlen)]

/-- C8: for every frame and column names `a b c`, evaluating the chained
comparison `a < b < c` gives exactly the result of evaluating
`(a < b) and (b < c)` (the grammar's elementwise AND, rendered `&` in the
source): pairwise comparisons combined left-to-right with logical AND. -/
theorem chained_comparison_is_pairwise_and (f : Frame) (a b c : String) :
    ruleEvaluate (Expr.compare (Expr.name a)
      (CmpList.cons CmpOp.lt (Expr.name b)
        (CmpList.cons CmpOp.lt (Expr.name c) CmpList.nil))) f =
    ruleEvaluate (Expr.boolOp true
      (Expr.compare (Expr.name a) (CmpList.cons CmpOp.lt (Expr.name b) CmpList.nil))
      (ExprList.cons
        (Expr.compare (Expr.name b) (CmpList.cons CmpOp.lt (Expr.name c) CmpList.nil))
        ExprList.nil)) f := by
  unfold ruleEvaluate
  by_cases hemp : frameEmpty f
  · rw [if_pos hemp, if_pos hemp]
  · rw [if_neg hemp, if_neg hemp]
    simp only [evalNode, evalCmpRest, evalBoolRest, ensureSeries]
    cases hla : lookupCtx f.cols a with
    | none => simp [hla]
    | some la =>
      simp only [hla]
      cases hlb : lookupCtx f.cols b with
      | none => simp [hlb]
      | some lb =>
        simp only [hlb]
        cases hcmp1 : zipCells (cellCmp CmpOp.lt) la lb with
        | error e => simp [hcmp1, ensureSeries]
        | ok cmp1 =>
          simp only [hcmp1, exceptOkBind, ensureSeries]
          rw [zipCells_and_replicate_true cmp1 f.nrows
            (zipCells_cmp_all_bool CmpOp.lt la lb cmp1 hcmp1)]
          simp only [exceptOkBind, ensureSeries]
          cases hlc : lookupCtx f.cols c with
          | none => simp [hlc]
          | some lc =>
            simp only [hlc]
            cases hcmp2 : zipCells (cellCmp CmpOp.lt) lb lc with
            | error e => simp [hcmp2, ensureSeries]
            | ok cmp2 =>
              simp only [hcmp2, exceptOkBind, ensureSeries]
              rw [zipCells_and_replicate_true cmp2 f.nrows
                (zipCells_cmp_all_bool CmpOp.lt lb lc cmp2 hcmp2)]
              simp only [exceptOkBind, ensureSeries, if_true]
              rw [zipCells_and_take_right (cmp1.take f.nrows) cmp2 f.nrows
                (by simpa using List.length_take_le f.nrows cmp1)]

/-! ### Claim C9: signal classification -/

/-- C9: whenever the per-symbol strategy evaluation succeeds, the
signal is `EXIT` exactly when the exit rule's most-recent result is
truthy (regardless of the entry flag), else `BUY` when the entry flag
is truthy, else `HOLD`; the two flags are `_latest_bool` of the
evaluated entry/exit series, and `_latest_bool` resolves an empty
series or a NaN most-recent value to `False`. -/
theorem signal_is_exit_then_buy_then_hold (entryExpr exitExpr : Expr)
    (data : Frame) (flags : SymbolFlags)
    (h : evaluateSymbolSignal entryExpr exitExpr data = Except.ok flags) :
    (flags.signal = if flags.exit_rule then "EXIT"
      else if flags.entry_rule then "BUY" else "HOLD") ∧
    (∃ es xs, ruleEvaluate entryExpr data = Except.ok es ∧
      ruleEvaluate exitExpr data = Except.ok xs ∧
      flags.entry_rule = latestBool es ∧ flags.exit_rule = latestBool xs) ∧
    latestBool [] = false ∧
    (∀ l : List Cell, latestBool (l ++ [Cell.nan]) = false) := by
  unfold evaluateSymbolSignal at h
  cases he : ruleEvaluate entryExpr data with
  | error e => simp [he] at h
  | ok es =>
    simp only [he, exceptOkBind] at h
    cases hx : ruleEvaluate exitExpr data with
    | error e => simp [hx] at h
    | ok xs =>
      simp only [hx, exceptOkBind, Except.ok.injEq] at h
      subst h
      refine ⟨rfl, ⟨es, xs, rfl, rfl, rfl, rfl⟩, rfl, ?_⟩
      intro l
      simp [latestBool, List.getLast?_concat, cellIsNA]

/-- Witness for C9: entry rule `close > sma_100` and exit rule
`close < sma_100` on a one-row frame with close 2 above SMA 1 give
entry flag `True`, exit flag `False` and signal `BUY`. -/
theorem signal_is_exit_then_buy_then_hold_witness :
    (("BUY" : String) = if false then "EXIT" else if true then "BUY" else "HOLD") ∧
    (∃ es xs, ruleEvaluate c9entry c9frame = Except.ok es ∧
      ruleEvaluate c9exit c9frame = Except.ok xs ∧
      true = latestBool es ∧ false = latestBool xs) ∧
    latestBool [] = false ∧
    (∀ l : List Cell, latestBool (l ++ [Cell.nan]) = false) :=
  signal_is_exit_then_buy_then_hold c9entry c9exit c9frame
    { entry_rule := true, exit_rule := false, signal := "BUY" }
    (by with_unfolding_all rfl)

/-! ### Claim C6: dry-run metrics equivalence -/

/-- C6: for the same engine, backtest configuration, per-day inputs,
output directory, label, chart flag and metric functions,
`BacktestEngine.run` with `dry_run=True` computes exactly the metrics
of the persisting run: the whole day loop and the metrics computation
precede every `dry_run` branch, which only affects artefact writing. -/
theorem dry_run_metrics_match_persisting_run (engine : EngineState)
    (bt : BacktestCfg) (sqrtFn : ℚ → ℚ) (powFn : ℚ → ℚ → ℚ)
    (days : List DayData) (outputDir : String) (label : Option String)
    (includeChart : Bool) :
    (runBacktest engine bt sqrtFn powFn days outputDir label includeChart
      true).map (fun r => r.metrics) =
    (runBacktest engine bt sqrtFn powFn days outputDir label includeChart
      false).map (fun r => r.metrics) := by
  simp only [runBacktest]
  by_cases hemp : days.isEmpty
  · rw [if_pos hemp, if_pos hemp]
  · rw [if_neg hemp, if_neg hemp]
    cases days.foldlM (runDay engine bt)
        { state := { cash := bt.initial_cash, positions := [] },
          equityRecords := [], trades := [], peakEquity := bt.initial_cash,
          previousEquity := bt.initial_cash, turnover_total := 0,
          rebalance_events := 0 } <;> rfl

end TradingSystem
